import Mathlib

/-!
A shallow embedding of the ICU `RegexMatcher` core (`rematch.cpp`): the
backtracking bytecode interpreter `MatchAt`, the save-state stack
(`backTrack` / `URX_STATE_SAVE`), and the matcher facade (`find`,
`matches`, `lookingAt`, `start`/`end`/`group`, `appendReplacement`,
`appendTail`, `replaceAll`, `reset`).

Modelling conventions:
- the subject string is a `List Nat` of UTF-16 code units;
- capture vectors and the backtrack stack are `List Int` (cells hold -1
  sentinels), matching the `UVector32` buffers of the source;
- the compiled pattern's 32-bit instruction words are abstracted to the
  `(TYPE, VAL)` pair that `URX_TYPE` / `URX_VAL` extract (the bit packing
  lives in `regeximp.h`, outside the sources; only the pair is observable
  in `rematch.cpp`);
- Unicode character data (`u_charType`, `u_isdigit`, `u_charDigitValue`)
  and the precompiled character sets are parameters (`UEnv`, pattern
  fields), since their tables are external to the matcher sources;
- the dispatch loop is fuelled (`MRes.fuelOut` when fuel runs out), and
  undefined behaviour of the C++ (out-of-bounds reads of the pattern,
  capture vectors, set tables, or popping a frame off an empty backtrack
  stack) is the explicit outcome `err`.
-/

/-- The Unicode general categories the engine distinguishes
(`U_DECIMAL_DIGIT_NUMBER`, `U_NON_SPACING_MARK`, `U_ENCLOSING_MARK`,
`U_CONTROL_CHAR`); every other category is collapsed to `otherCategory`
because `rematch.cpp` only ever compares against these four. -/
inductive UCharCategory where
  | decimalDigitNumber
  | nonSpacingMark
  | enclosingMark
  | controlChar
  | otherCategory
deriving DecidableEq, Repr

/-- External Unicode character data consumed by the matcher:
`u_charType`, `u_isdigit` and `u_charDigitValue` (their tables live
outside the matcher sources). -/
structure UEnv where
  uCharType : Nat → UCharCategory
  uIsDigit : Nat → Bool
  uCharDigitValue : Nat → Int

/-- Lead (high) surrogate test on a UTF-16 code unit. -/
def isLead (c : Nat) : Bool := decide (0xD800 ≤ c ∧ c ≤ 0xDBFF)

/-- Trail (low) surrogate test on a UTF-16 code unit. -/
def isTrail (c : Nat) : Bool := decide (0xDC00 ≤ c ∧ c ≤ 0xDFFF)

/-- Combine a surrogate pair into a supplementary code point. -/
def supplementary (lead trail : Nat) : Nat :=
  (lead - 0xD800) * 0x400 + (trail - 0xDC00) + 0x10000

/-- `UnicodeString::charAt`: the code unit at an index, `0xFFFF` when the
index is out of range. -/
def charAtU (s : List Nat) (i : Nat) : Nat := s.getD i 0xFFFF

/-- `UnicodeString::char32At`: the code point containing the code unit at
an index (coalescing a surrogate pair in either direction), `0xFFFF` when
the index is out of range. -/
def char32At (s : List Nat) (i : Nat) : Nat :=
  if i < s.length then
    let c := s.getD i 0
    if isLead c ∧ i + 1 < s.length ∧ isTrail (s.getD (i + 1) 0) then
      supplementary c (s.getD (i + 1) 0)
    else if isTrail c ∧ 1 ≤ i ∧ isLead (s.getD (i - 1) 0) then
      supplementary (s.getD (i - 1) 0) c
    else c
  else 0xFFFF

/-- The `U16_NEXT` macro: read the code point at `i` (coalescing a lead
surrogate with a following trail surrogate before the limit) and return it
together with the advanced index. -/
def u16Next (s : List Nat) (i : Nat) : Nat × Nat :=
  let c := s.getD i 0
  if isLead c ∧ i + 1 < s.length ∧ isTrail (s.getD (i + 1) 0) then
    (supplementary c (s.getD (i + 1) 0), i + 2)
  else (c, i + 1)

/-- `UnicodeString::moveIndex32(i, 1)`: advance one code point, pinning the
result to the string bounds. -/
def fwd1 (s : List Nat) (i : Nat) : Nat :=
  min s.length
    (if isLead (s.getD i 0) ∧ i + 1 < s.length ∧ isTrail (s.getD (i + 1) 0) then i + 2
     else i + 1)

/-- `UnicodeString::moveIndex32(i, -1)`: retreat one code point (stepping
over a surrogate pair), pinned at 0. -/
def back1 (s : List Nat) (i : Nat) : Nat :=
  if i = 0 then 0
  else if isTrail (s.getD (i - 1) 0) ∧ 1 ≤ i - 1 ∧ isLead (s.getD (i - 1 - 1) 0) then
    i - 1 - 1
  else i - 1

/-- `u_strncmp(s+si, t+ti, n) == 0`: equality of `n` code units of the
subject against the pattern's literal-text buffer. -/
def strRangeEq (s : List Nat) (si : Nat) (t : List Nat) (ti : Nat) (n : Nat) : Bool :=
  (List.range n).all fun k => s.getD (si + k) 0 == t.getD (ti + k) 0

/-- The opcodes of the compiled pattern, as the `(URX_TYPE, URX_VAL)`
pairs that `MatchAt` dispatches on. -/
inductive URXOp where
  | URX_NOP
  | URX_BACKTRACK
  | URX_ONECHAR (c : Nat)
  | URX_STRING (off : Nat)
  | URX_STRING_LEN (n : Nat)
  | URX_STATE_SAVE (t : Nat)
  | URX_END
  | URX_START_CAPTURE (g : Nat)
  | URX_END_CAPTURE (g : Nat)
  | URX_DOLLAR
  | URX_CARET
  | URX_BACKSLASH_A
  | URX_BACKSLASH_B (v : Nat)
  | URX_BACKSLASH_D (v : Nat)
  | URX_BACKSLASH_G
  | URX_BACKSLASH_X
  | URX_BACKSLASH_Z
  | URX_STATIC_SETREF (v : Nat)
  | URX_SETREF (v : Nat)
  | URX_DOTANY
  | URX_DOTANY_ALL
  | URX_JMP (t : Nat)
  | URX_FAIL
deriving DecidableEq, Repr

/-- The compiled-pattern object the matcher consumes (`RegexPattern`
fields referenced by `rematch.cpp`). Character sets are membership
predicates. -/
structure RegexPattern where
  fCompiledPat : List URXOp
  fLiteralText : List Nat
  fSets : List (Nat → Bool)
  fStaticSets : List (Nat → Bool)
  fNumCaptureGroups : Nat
  fMaxCaptureDigits : Nat

/-- The `URX_NEG_SET` polarity bit inside a `URX_STATIC_SETREF` operand
(a single high bit of the operand, per the compiler contract). -/
def URX_NEG_SET : Nat := 0x800000

/-- Index of the word-character set inside `fStaticSets`, used by
`isWordBoundary` for `\b` / `\B`. -/
def URX_ISWORD_SET : Nat := 1

/-- The word set of a pattern: `fStaticSets[URX_ISWORD_SET]->contains`. -/
def wordSetOf (pat : RegexPattern) : Nat → Bool :=
  pat.fStaticSets.getD URX_ISWORD_SET (fun _ => false)

/-- The interpreter-local state of one `MatchAt` run: current input
position, pattern position, the cached capture buffers and the backtrack
stack (bottom cell first). -/
structure RunState where
  inputIdx : Nat
  patIdx : Nat
  capStarts : List Int
  capEnds : List Int
  stack : List Int
deriving DecidableEq, Repr

/-- Result of one dispatch-loop iteration. -/
inductive StepRes where
  | cont (rs : RunState)
  | done (isMatch : Bool) (rs : RunState)
  | err
deriving DecidableEq, Repr

/-- Result of a fuelled engine operation: a value, undefined behaviour of
the C++ (`err`), or fuel exhaustion (`fuelOut`, i.e. the source would
still be looping). -/
inductive MRes (α : Type) where
  | ok (a : α)
  | err
  | fuelOut
deriving DecidableEq, Repr

/-- The cells pushed for the capture groups by `URX_STATE_SAVE`, in push
order: `fCapStarts[i], fCapEnds[i]` for `i = N` down to `1`. -/
def savedPairs (starts ends : List Int) : Nat → List Int
  | 0 => []
  | i + 1 => starts.getD (i + 1) 0 :: ends.getD (i + 1) 0 :: savedPairs starts ends i

/-- The restore loop of `backTrack`: read the popped block forward,
writing `fCapStarts[i], fCapEnds[i]` for `i = N` down to `1`, and return
the still-unread cells. -/
def restoreCaps : List Int → List Int → List Int → Nat → List Int × List Int × List Int
  | starts, ends, cells, 0 => (starts, ends, cells)
  | starts, ends, a :: b :: rest, i + 1 =>
      restoreCaps (starts.set (i + 1) a) (ends.set (i + 1) b) rest (i)
  | starts, ends, cells, _ + 1 => (starts, ends, cells)

/-- `RegexMatcher::backTrack`: pop a block of `fCaptureStateSize = 2N+2`
cells and restore the capture buffers, the pattern index and the input
index from it. The source performs the pop unconditionally; when fewer
than `2N+2` cells are on the stack there is no valid frame to read
(`popBlock` would hand back memory outside the stack), modelled as
`none`. -/
def applyBackTrack (N : Nat) (rs : RunState) : Option RunState :=
  let fsz := 2 * N + 2
  if fsz ≤ rs.stack.length then
    let k := rs.stack.length - fsz
    let frame := rs.stack.drop k
    match restoreCaps rs.capStarts rs.capEnds frame N with
    | (starts2, ends2, [p, i]) =>
        some { inputIdx := i.toNat, patIdx := p.toNat,
               capStarts := starts2, capEnds := ends2, stack := rs.stack.take k }
    | _ => none
  else none

/-- The capture-clearing loop (`setElementAt(-1, i)` for `i = 0 .. N`),
used by `reset` and at the top of `MatchAt`. -/
def setNeg1 (l : List Int) : Nat → List Int
  | 0 => l.set 0 (-1)
  | i + 1 => (setNeg1 l i).set (i + 1) (-1)

/-- The combining-mark consumption loop of `URX_BACKSLASH_X`: skip code
points whose category is `NON_SPACING_MARK` or `ENCLOSING_MARK`, stopping
after an advance reaches the end of input. The loop advances by at least
one code unit per iteration, so the fuel `inp.length + 1` supplied at the
call site always suffices. -/
def consumeMarks (env : UEnv) (inp : List Nat) : Nat → Nat → Nat
  | 0, i => i
  | fuel + 1, i =>
    let c := char32At inp i
    if env.uCharType c = .nonSpacingMark ∨ env.uCharType c = .enclosingMark then
      if inp.length ≤ fwd1 inp i then fwd1 inp i
      else consumeMarks env inp fuel (fwd1 inp i)
    else i

/-- The backward scan of `isWordBoundary`: starting from `prevPos`, step
back one code point at a time past combining marks; the word-set
membership of the first non-combining code point found, `false` when the
start of input is reached first. The position strictly decreases each
iteration, so the fuel `pos + 1` supplied at the call site always
suffices. -/
def prevCIsWordScan (env : UEnv) (pat : RegexPattern) (inp : List Nat) : Nat → Nat → Bool
  | 0, _ => false
  | fuel + 1, prevPos =>
    if prevPos = 0 then false
    else
      let p := back1 inp prevPos
      let pc := char32At inp p
      if env.uCharType pc = .nonSpacingMark ∨ env.uCharType pc = .enclosingMark then
        prevCIsWordScan env pat inp fuel p
      else wordSetOf pat pc

/-- `RegexMatcher::isWordBoundary`: false past the end of input or on a
combining mark; otherwise the word-set membership of the current code
point XOR that of the nearest preceding non-combining code point. -/
def isWordBoundary (env : UEnv) (pat : RegexPattern) (inp : List Nat) (pos : Nat) : Bool :=
  if inp.length ≤ pos then false
  else
    let c := char32At inp pos
    if env.uCharType c = .nonSpacingMark ∨ env.uCharType c = .enclosingMark then false
    else
      let cIsWord := wordSetOf pat c
      let prevCIsWord := prevCIsWordScan env pat inp (pos + 1) pos
      cIsWord.xor prevCIsWord

/-- The `URX_DOLLAR` test of `MatchAt`, with the source's exact ordering:
an early failure exit when `inputIdx < inputLen - 2` (int arithmetic),
then success at end of input, success just before a terminal line break,
success just before a terminal CR LF, and failure otherwise. `true` means
the anchor succeeds. -/
def dollarHit (inp : List Nat) (inputIdx : Nat) : Bool :=
  let inputLen : Int := inp.length
  if (inputIdx : Int) < inputLen - 2 then false
  else if (inputIdx : Int) ≥ inputLen then true
  else if (inputIdx : Int) = inputLen - 1 ∧
      (char32At inp inputIdx = 0x0a ∨ char32At inp inputIdx = 0x0d ∨
       char32At inp inputIdx = 0x0c ∨ char32At inp inputIdx = 0x85 ∨
       char32At inp inputIdx = 0x2028 ∨ char32At inp inputIdx = 0x2029) then true
  else if (inputIdx : Int) = inputLen - 2 ∧ char32At inp inputIdx = 0x0d ∧
      char32At inp (inputIdx + 1) = 0x0a then true
  else false

/-- One iteration of the `MatchAt` dispatch loop: fetch
`op = code[patIdx]`, advance `patIdx`, and execute the opcode. Local
failures invoke `applyBackTrack`; `URX_END` / `URX_FAIL` exit the loop.
An out-of-range pattern fetch, an out-of-range capture-group or set
operand, a missing `URX_STRING_LEN` word, or a pop from a too-small stack
is `err` (undefined behaviour or a diagnostic assertion in the source). -/
def matchStep (env : UEnv) (pat : RegexPattern) (inp : List Nat)
    (priorMatch : Bool) (priorMatchEnd : Nat) (rs : RunState) : StepRes :=
  match pat.fCompiledPat.get? rs.patIdx with
  | none => .err
  | some op =>
    let N := pat.fNumCaptureGroups
    let pi := rs.patIdx + 1
    let bt : RunState → StepRes := fun r =>
      match applyBackTrack N r with
      | none => .err
      | some r2 => .cont r2
    match op with
    | .URX_NOP => .cont { rs with patIdx := pi }
    | .URX_BACKTRACK => bt { rs with patIdx := pi }
    | .URX_ONECHAR c =>
      if rs.inputIdx < inp.length then
        if (u16Next inp rs.inputIdx).1 = c then
          .cont { rs with patIdx := pi, inputIdx := (u16Next inp rs.inputIdx).2 }
        else bt { rs with patIdx := pi, inputIdx := (u16Next inp rs.inputIdx).2 }
      else bt { rs with patIdx := pi }
    | .URX_STRING off =>
      match pat.fCompiledPat.get? pi with
      | some (.URX_STRING_LEN slen) =>
        let pi2 := pi + 1
        let strEnd := rs.inputIdx + slen
        if strEnd ≤ inp.length ∧ strRangeEq inp rs.inputIdx pat.fLiteralText off slen then
          .cont { rs with patIdx := pi2, inputIdx := strEnd }
        else bt { rs with patIdx := pi2 }
      | _ => .err
    | .URX_STRING_LEN _ => .err
    | .URX_STATE_SAVE t =>
      .cont { rs with
              patIdx := pi,
              stack := rs.stack ++ (savedPairs rs.capStarts rs.capEnds N ++ [(t : Int), (rs.inputIdx : Int)]) }
    | .URX_END => .done true { rs with patIdx := pi }
    | .URX_START_CAPTURE g =>
      if 1 ≤ g ∧ g ≤ N then
        .cont { rs with patIdx := pi, capStarts := rs.capStarts.set g (rs.inputIdx : Int) }
      else .err
    | .URX_END_CAPTURE g =>
      if 1 ≤ g ∧ g ≤ N then
        .cont { rs with patIdx := pi, capEnds := rs.capEnds.set g (rs.inputIdx : Int) }
      else .err
    | .URX_DOLLAR =>
      if dollarHit inp rs.inputIdx then .cont { rs with patIdx := pi }
      else bt { rs with patIdx := pi }
    | .URX_CARET =>
      if rs.inputIdx ≠ 0 then bt { rs with patIdx := pi } else .cont { rs with patIdx := pi }
    | .URX_BACKSLASH_A =>
      if rs.inputIdx ≠ 0 then bt { rs with patIdx := pi } else .cont { rs with patIdx := pi }
    | .URX_BACKSLASH_B v =>
      if (isWordBoundary env pat inp rs.inputIdx).xor (v != 0) then .cont { rs with patIdx := pi }
      else bt { rs with patIdx := pi }
    | .URX_BACKSLASH_D v =>
      if inp.length ≤ rs.inputIdx then bt { rs with patIdx := pi }
      else
        let c := char32At inp rs.inputIdx
        if (decide (env.uCharType c = .decimalDigitNumber)).xor (v != 0) then
          .cont { rs with patIdx := pi, inputIdx := fwd1 inp rs.inputIdx }
        else bt { rs with patIdx := pi }
    | .URX_BACKSLASH_G =>
      if ¬((priorMatch = true ∧ rs.inputIdx = priorMatchEnd) ∨
           (priorMatch = false ∧ rs.inputIdx = 0)) then
        bt { rs with patIdx := pi }
      else .cont { rs with patIdx := pi }
    | .URX_BACKSLASH_X =>
      if inp.length ≤ rs.inputIdx then bt { rs with patIdx := pi }
      else
        let c := char32At inp rs.inputIdx
        let i1 := fwd1 inp rs.inputIdx
        if c = 0x0d ∧ char32At inp i1 = 0x0a then
          .cont { rs with patIdx := pi, inputIdx := fwd1 inp i1 }
        else if env.uCharType c ≠ .controlChar then
          .cont { rs with patIdx := pi, inputIdx := consumeMarks env inp (inp.length + 1) i1 }
        else .cont { rs with patIdx := pi, inputIdx := i1 }
    | .URX_BACKSLASH_Z =>
      if rs.inputIdx < inp.length then bt { rs with patIdx := pi }
      else .cont { rs with patIdx := pi }
    | .URX_STATIC_SETREF v =>
      if rs.inputIdx < inp.length then
        match pat.fStaticSets.get? (v &&& 0xFF7FFFFF) with
        | none => .err
        | some s =>
          if (if s (u16Next inp rs.inputIdx).1 then ¬((v &&& URX_NEG_SET) = URX_NEG_SET)
              else (v &&& URX_NEG_SET) = URX_NEG_SET) then
            .cont { rs with patIdx := pi, inputIdx := (u16Next inp rs.inputIdx).2 }
          else bt { rs with patIdx := pi, inputIdx := (u16Next inp rs.inputIdx).2 }
      else
        if (v &&& URX_NEG_SET) = URX_NEG_SET then .cont { rs with patIdx := pi }
        else bt { rs with patIdx := pi }
    | .URX_SETREF v =>
      if rs.inputIdx < inp.length then
        match pat.fSets.get? v with
        | none => .err
        | some s =>
          if s (u16Next inp rs.inputIdx).1 then
            .cont { rs with patIdx := pi, inputIdx := (u16Next inp rs.inputIdx).2 }
          else bt { rs with patIdx := pi, inputIdx := (u16Next inp rs.inputIdx).2 }
      else bt { rs with patIdx := pi }
    | .URX_DOTANY =>
      if inp.length ≤ rs.inputIdx then bt { rs with patIdx := pi }
      else
        if ((u16Next inp rs.inputIdx).1 &&& 0x7f) ≤ 0x29 ∧
            ((u16Next inp rs.inputIdx).1 = 0x0a ∨ (u16Next inp rs.inputIdx).1 = 0x0d ∨
             (u16Next inp rs.inputIdx).1 = 0x0c ∨ (u16Next inp rs.inputIdx).1 = 0x85 ∨
             (u16Next inp rs.inputIdx).1 = 0x2028 ∨ (u16Next inp rs.inputIdx).1 = 0x2029) then
          bt { rs with patIdx := pi, inputIdx := (u16Next inp rs.inputIdx).2 }
        else .cont { rs with patIdx := pi, inputIdx := (u16Next inp rs.inputIdx).2 }
    | .URX_DOTANY_ALL =>
      if inp.length ≤ rs.inputIdx then bt { rs with patIdx := pi }
      else
        let c := char32At inp rs.inputIdx
        let i1 := fwd1 inp rs.inputIdx
        if c = 0x0a ∨ c = 0x0d ∨ c = 0x0c ∨ c = 0x85 ∨ c = 0x2028 ∨ c = 0x2029 then
          if c = 0x0d ∧ char32At inp i1 = 0x0a then
            .cont { rs with patIdx := pi, inputIdx := fwd1 inp i1 }
          else .cont { rs with patIdx := pi, inputIdx := i1 }
        else .cont { rs with patIdx := pi, inputIdx := i1 }
    | .URX_JMP t => .cont { rs with patIdx := t }
    | .URX_FAIL => .done false { rs with patIdx := pi }

/-- The `MatchAt` dispatch loop: iterate `matchStep` until `URX_END` or
`URX_FAIL` exits, fuelled by the number of remaining iterations. -/
def matchLoop (env : UEnv) (pat : RegexPattern) (inp : List Nat)
    (priorMatch : Bool) (priorMatchEnd : Nat) : Nat → RunState → MRes (Bool × RunState)
  | 0, _ => .fuelOut
  | fuel + 1, rs =>
    match matchStep env pat inp priorMatch priorMatchEnd rs with
    | .err => .err
    | .done b rs2 => .ok (b, rs2)
    | .cont rs2 => matchLoop env pat inp priorMatch priorMatchEnd fuel rs2

/-- The matcher's observable state: the capture vectors, the most recent
match bounds, the previous match end, the match flag and the backtrack
stack (which the source never clears between calls). -/
structure MatcherS where
  fCaptureStarts : List Int
  fCaptureEnds : List Int
  fMatchStart : Nat
  fMatchEnd : Nat
  fLastMatchEnd : Nat
  fMatch : Bool
  fStack : List Int
deriving DecidableEq, Repr

/-- `RegexMatcher::MatchAt(startIdx)`: clear the capture starts, run the
dispatch loop from pattern index 0, then perform the end-of-loop
bookkeeping (`fMatch`, and on success `fLastMatchEnd`/`fMatchStart`/
`fMatchEnd`). -/
def MatchAt (env : UEnv) (pat : RegexPattern) (inp : List Nat) (fuel : Nat)
    (m : MatcherS) (startIdx : Nat) : MRes MatcherS :=
  let rs0 : RunState :=
    { inputIdx := startIdx, patIdx := 0,
      capStarts := setNeg1 m.fCaptureStarts pat.fNumCaptureGroups,
      capEnds := m.fCaptureEnds, stack := m.fStack }
  match matchLoop env pat inp m.fMatch m.fMatchEnd fuel rs0 with
  | .err => .err
  | .fuelOut => .fuelOut
  | .ok (isMatch, rs) =>
    if isMatch then
      .ok { fCaptureStarts := rs.capStarts,
            fCaptureEnds := rs.capEnds,
            fMatchStart := startIdx,
            fMatchEnd := rs.inputIdx,
            fLastMatchEnd := m.fMatchEnd,
            fMatch := true,
            fStack := rs.stack }
    else
      .ok { m with
            fCaptureStarts := rs.capStarts,
            fCaptureEnds := rs.capEnds,
            fMatch := false,
            fStack := rs.stack }

/-- `RegexMatcher::reset()`: zero the match bounds, clear the match flag
and set every capture start to -1 (the capture ends and the backtrack
stack are not touched). -/
def resetM (pat : RegexPattern) (m : MatcherS) : MatcherS :=
  { m with
    fMatchStart := 0, fMatchEnd := 0, fLastMatchEnd := 0, fMatch := false,
    fCaptureStarts := setNeg1 m.fCaptureStarts pat.fNumCaptureGroups }

/-- A freshly constructed matcher: both capture vectors hold `N+1` cells
of -1, state reset, backtrack stack empty. -/
def newMatcher (pat : RegexPattern) : MatcherS :=
  resetM pat
    { fCaptureStarts := List.replicate (pat.fNumCaptureGroups + 1) (-1),
      fCaptureEnds := List.replicate (pat.fNumCaptureGroups + 1) (-1),
      fMatchStart := 0, fMatchEnd := 0, fLastMatchEnd := 0, fMatch := false, fStack := [] }

/-- The scan loop of `RegexMatcher::find()`: try `MatchAt` at `startPos`,
`moveIndex32(startPos, 1)`, ... while `startPos < fInputLength`; stop on
the first success. The scan position strictly increases each iteration,
so the loop fuel `inp.length + 1` supplied by `find` always suffices. -/
def findFrom (env : UEnv) (pat : RegexPattern) (inp : List Nat) (fuelM : Nat) :
    Nat → MatcherS → Nat → MRes (Bool × MatcherS)
  | 0, _, _ => .fuelOut
  | fl + 1, m, startPos =>
    if startPos < inp.length then
      match MatchAt env pat inp fuelM m startPos with
      | .err => .err
      | .fuelOut => .fuelOut
      | .ok m1 =>
        if m1.fMatch then .ok (true, m1)
        else findFrom env pat inp fuelM fl m1 (fwd1 inp startPos)
    else .ok (false, m)

/-- `RegexMatcher::find()`: scan from the end of the previous match
(`fMatchEnd`, zero after a reset). -/
def find (env : UEnv) (pat : RegexPattern) (inp : List Nat) (fuelM : Nat)
    (m : MatcherS) : MRes (Bool × MatcherS) :=
  findFrom env pat inp fuelM (inp.length + 1) m m.fMatchEnd

/-- `RegexMatcher::lookingAt`: reset, run `MatchAt(0)`, return `fMatch`. -/
def lookingAt (env : UEnv) (pat : RegexPattern) (inp : List Nat) (fuelM : Nat)
    (m : MatcherS) : MRes (Bool × MatcherS) :=
  match MatchAt env pat inp fuelM (resetM pat m) 0 with
  | .err => .err
  | .fuelOut => .fuelOut
  | .ok m1 => .ok (m1.fMatch, m1)

/-- `RegexMatcher::matches`: reset, run `MatchAt(0)`, return
`fMatch && fMatchEnd == fInputLength`. -/
def matchesAll (env : UEnv) (pat : RegexPattern) (inp : List Nat) (fuelM : Nat)
    (m : MatcherS) : MRes (Bool × MatcherS) :=
  match MatchAt env pat inp fuelM (resetM pat m) 0 with
  | .err => .err
  | .fuelOut => .fuelOut
  | .ok m1 => .ok (m1.fMatch && decide (m1.fMatchEnd = inp.length), m1)

/-- The error statuses the matcher facade reports. -/
inductive UErrorCode where
  | U_ZERO_ERROR
  | U_REGEX_INVALID_STATE
  | U_INDEX_OUTOFBOUNDS_ERROR
deriving DecidableEq, Repr

/-- `RegexMatcher::start(group, err)`: -1 under a pre-existing error, a
missing match (`U_REGEX_INVALID_STATE`) or an out-of-range group
(`U_INDEX_OUTOFBOUNDS_ERROR`); `fMatchStart` for group 0, else
`fCaptureStarts[group]`. -/
def startG (pat : RegexPattern) (m : MatcherS) (group : Int) (err : UErrorCode) :
    Int × UErrorCode :=
  if err ≠ .U_ZERO_ERROR then (-1, err)
  else if m.fMatch = false then (-1, .U_REGEX_INVALID_STATE)
  else if group < 0 ∨ (pat.fNumCaptureGroups : Int) < group then (-1, .U_INDEX_OUTOFBOUNDS_ERROR)
  else if group = 0 then ((m.fMatchStart : Int), err)
  else (m.fCaptureStarts.getD group.toNat 0, err)

/-- `RegexMatcher::end(group, err)`: same error checks as `start`;
`fMatchEnd` for group 0, else `fCaptureEnds[group]` guarded by the -1
check on the group's start slot (the end slot holds junk otherwise). -/
def endG (pat : RegexPattern) (m : MatcherS) (group : Int) (err : UErrorCode) :
    Int × UErrorCode :=
  if err ≠ .U_ZERO_ERROR then (-1, err)
  else if m.fMatch = false then (-1, .U_REGEX_INVALID_STATE)
  else if group < 0 ∨ (pat.fNumCaptureGroups : Int) < group then (-1, .U_INDEX_OUTOFBOUNDS_ERROR)
  else if group = 0 then ((m.fMatchEnd : Int), err)
  else if m.fCaptureStarts.getD group.toNat 0 ≠ -1 then
    (m.fCaptureEnds.getD group.toNat 0, err)
  else (-1, err)

/-- `RegexMatcher::group(groupNum, status)`: call `start` and `end`; on
error or a non-participating group (start slot < 0), the empty string;
otherwise the substring of the input over `[start, end)`. -/
def groupG (pat : RegexPattern) (inp : List Nat) (m : MatcherS) (groupNum : Int)
    (status : UErrorCode) : List Nat × UErrorCode :=
  let se := startG pat m groupNum status
  let ee := endG pat m groupNum se.2
  if ee.2 ≠ .U_ZERO_ERROR then ([], ee.2)
  else if se.1 < 0 then ([], ee.2)
  else ((inp.drop se.1.toNat).take (ee.1 - se.1).toNat, ee.2)

/-- The `$`-digit parsing loop of `appendReplacement`: consume up to
`fMaxCaptureDigits` decimal digits, accumulating the group number; the
result is the advanced index, the group number and the digit count. The
index strictly increases each iteration, so the fuel `repl.length + 1`
supplied at the call site always suffices. -/
def parseGroupDigits (env : UEnv) (pat : RegexPattern) (repl : List Nat) :
    Nat → Nat → Int → Nat → Nat × Int × Nat
  | 0, replIdx, groupNum, numDigits => (replIdx, groupNum, numDigits)
  | fuel + 1, replIdx, groupNum, numDigits =>
    if repl.length ≤ replIdx then (replIdx, groupNum, numDigits)
    else
      let digitC := char32At repl replIdx
      if env.uIsDigit digitC = false then (replIdx, groupNum, numDigits)
      else
        let replIdx2 := fwd1 repl replIdx
        let groupNum2 := groupNum * 10 + env.uCharDigitValue digitC
        let numDigits2 := numDigits + 1
        if numDigits2 ≥ pat.fMaxCaptureDigits then (replIdx2, groupNum2, numDigits2)
        else parseGroupDigits env pat repl fuel replIdx2 groupNum2 numDigits2

/-- The replacement-text scan loop of `appendReplacement`: copy ordinary
code units, handle `\` escapes, and expand `$n` group references via
`group`; an error from `group` (invalid group number) stops the scan after
the (empty) append, leaving everything built so far in `dest`. -/
def applRScan (env : UEnv) (pat : RegexPattern) (inp : List Nat) (m : MatcherS)
    (repl : List Nat) : Nat → List Nat → Nat → List Nat × UErrorCode
  | 0, dest, _ => (dest, .U_ZERO_ERROR)
  | fuel + 1, dest, replIdx =>
    if replIdx < repl.length then
      let c := charAtU repl replIdx
      let replIdx1 := replIdx + 1
      if c = 0x5c then
        if repl.length ≤ replIdx1 then (dest, .U_ZERO_ERROR)
        else applRScan env pat inp m repl fuel (dest ++ [charAtU repl replIdx1]) (replIdx1 + 1)
      else if c ≠ 0x24 then applRScan env pat inp m repl fuel (dest ++ [c]) replIdx1
      else
        let pr := parseGroupDigits env pat repl (repl.length + 1) replIdx1 0 0
        if pr.2.2 = 0 then applRScan env pat inp m repl fuel (dest ++ [0x24]) pr.1
        else
          let ge := groupG pat inp m pr.2.1 .U_ZERO_ERROR
          let dest2 := dest ++ ge.1
          if ge.2 ≠ .U_ZERO_ERROR then (dest2, ge.2)
          else applRScan env pat inp m repl fuel dest2 pr.1
    else (dest, .U_ZERO_ERROR)

/-- `RegexMatcher::appendReplacement(dest, replacement, status)`: under a
pre-existing error or without a match, leave `dest` alone (setting
`U_REGEX_INVALID_STATE` in the latter case); otherwise append the input
between the previous match end and the current match start, then run the
replacement-text scan. -/
def appendReplacement (env : UEnv) (pat : RegexPattern) (inp : List Nat) (m : MatcherS)
    (dest repl : List Nat) (status : UErrorCode) : List Nat × UErrorCode :=
  if status ≠ .U_ZERO_ERROR then (dest, status)
  else if m.fMatch = false then (dest, .U_REGEX_INVALID_STATE)
  else
    let between : Int := (m.fMatchStart : Int) - (m.fLastMatchEnd : Int)
    let dest1 :=
      if 0 < between then dest ++ (inp.drop m.fLastMatchEnd).take between.toNat else dest
    applRScan env pat inp m repl (repl.length + 1) dest1 0

/-- `RegexMatcher::appendTail(dest)`: append the input from `fMatchEnd`
to the end. -/
def appendTail (inp : List Nat) (m : MatcherS) (dest : List Nat) : List Nat :=
  if 0 < (inp.length : Int) - (m.fMatchEnd : Int) then
    dest ++ (inp.drop m.fMatchEnd).take ((inp.length : Int) - (m.fMatchEnd : Int)).toNat
  else dest

/-- The `for (reset(); find(); )` loop of `replaceAll`: while `find`
succeeds, run `appendReplacement`, stopping early (but keeping `dest`)
when it reports an error. -/
def replaceAllLoop (env : UEnv) (pat : RegexPattern) (inp repl : List Nat) (fuelM : Nat) :
    Nat → MatcherS → List Nat → MRes (MatcherS × List Nat × UErrorCode)
  | 0, _, _ => .fuelOut
  | fl + 1, m, dest =>
    match find env pat inp fuelM m with
    | .err => .err
    | .fuelOut => .fuelOut
    | .ok (false, m1) => .ok (m1, dest, .U_ZERO_ERROR)
    | .ok (true, m1) =>
      let de := appendReplacement env pat inp m1 dest repl .U_ZERO_ERROR
      if de.2 ≠ .U_ZERO_ERROR then .ok (m1, de.1, de.2)
      else replaceAllLoop env pat inp repl fuelM fl m1 de.1

/-- `RegexMatcher::replaceAll(replacement)`: reset, loop `find` +
`appendReplacement`, then `appendTail` (also after an error break). -/
def replaceAll (env : UEnv) (pat : RegexPattern) (inp repl : List Nat)
    (fl fuelM : Nat) (m : MatcherS) : MRes (List Nat × UErrorCode) :=
  match replaceAllLoop env pat inp repl fuelM fl (resetM pat m) [] with
  | .err => .err
  | .fuelOut => .fuelOut
  | .ok (m1, dest, st) => .ok (appendTail inp m1 dest, st)

/-- A concrete Unicode environment sufficient for the ASCII subjects used
in the scenarios: digits are `0`-`9`, control characters are below 0x20,
everything else is `otherCategory`. -/
def asciiEnv : UEnv :=
  { uCharType := fun c =>
      if 0x30 ≤ c ∧ c ≤ 0x39 then .decimalDigitNumber
      else if c < 0x20 then .controlChar
      else .otherCategory,
    uIsDigit := fun c => decide (0x30 ≤ c ∧ c ≤ 0x39),
    uCharDigitValue := fun c => if 0x30 ≤ c ∧ c ≤ 0x39 then (c : Int) - 0x30 else -1 }

/-- The ASCII portion of the `\w` word-character set. -/
def asciiWordSet : Nat → Bool := fun c =>
  decide ((0x61 ≤ c ∧ c ≤ 0x7a) ∨ (0x41 ≤ c ∧ c ≤ 0x5a) ∨ (0x30 ≤ c ∧ c ≤ 0x39) ∨ c = 0x5f)

/-- The empty character set (filler for unused static-set slots). -/
def emptySet : Nat → Bool := fun _ => false

/-- Compiled form of the pattern `\b` (with the compiler's leading
`URX_STATE_SAVE` guarding the failure path): save to the `URX_FAIL` at
index 3, test the boundary, succeed. -/
def patB : RegexPattern :=
  { fCompiledPat := [.URX_STATE_SAVE 3, .URX_BACKSLASH_B 0, .URX_END, .URX_FAIL],
    fLiteralText := [], fSets := [], fStaticSets := [emptySet, asciiWordSet],
    fNumCaptureGroups := 0, fMaxCaptureDigits := 1 }

/-- The subject `"a b"` as UTF-16 code units. -/
def inpAB : List Nat := [0x61, 0x20, 0x62]

/-- A compiled pattern that matches the empty string at any position:
a single `URX_END`. -/
def patEnd : RegexPattern :=
  { fCompiledPat := [.URX_END],
    fLiteralText := [], fSets := [], fStaticSets := [emptySet, asciiWordSet],
    fNumCaptureGroups := 0, fMaxCaptureDigits := 1 }

/-- Compiled form of the literal pattern `a` with no leading state save:
its failure path calls `backTrack` on an empty stack. -/
def patOneCharA : RegexPattern :=
  { fCompiledPat := [.URX_ONECHAR 0x61, .URX_END],
    fLiteralText := [], fSets := [], fStaticSets := [emptySet, asciiWordSet],
    fNumCaptureGroups := 0, fMaxCaptureDigits := 1 }

/-- A pattern that pushes a save state and then immediately succeeds,
leaving the saved frame on the backtrack stack. -/
def patSaveEnd : RegexPattern :=
  { fCompiledPat := [.URX_STATE_SAVE 2, .URX_END, .URX_FAIL],
    fLiteralText := [], fSets := [], fStaticSets := [emptySet, asciiWordSet],
    fNumCaptureGroups := 0, fMaxCaptureDigits := 1 }

/-- Compiled form of `.` (DOTANY) followed by success, used as a
whole-subject matcher on one-character inputs. -/
def patDot : RegexPattern :=
  { fCompiledPat := [.URX_DOTANY, .URX_END],
    fLiteralText := [], fSets := [], fStaticSets := [emptySet, asciiWordSet],
    fNumCaptureGroups := 0, fMaxCaptureDigits := 1 }

/-- The replacement text `"$0"` as code units. -/
def replDollar0 : List Nat := [0x24, 0x30]

/-- Compiled form of the literal pattern `a` with the compiler's leading
`URX_STATE_SAVE` guarding the failure path. -/
def patSaveOneCharA : RegexPattern :=
  { fCompiledPat := [.URX_STATE_SAVE 3, .URX_ONECHAR 0x61, .URX_END, .URX_FAIL],
    fLiteralText := [], fSets := [], fStaticSets := [emptySet, asciiWordSet],
    fNumCaptureGroups := 0, fMaxCaptureDigits := 1 }

/-- A pattern shell with one capture group, used to exercise the
`start`/`end`/`group` accessors (which read only `fNumCaptureGroups`). -/
def patOneGroup : RegexPattern :=
  { fCompiledPat := [.URX_END],
    fLiteralText := [], fSets := [], fStaticSets := [emptySet, asciiWordSet],
    fNumCaptureGroups := 1, fMaxCaptureDigits := 1 }

/-- Line-terminator test on a code point, as enumerated by the `DOLLAR`
anchor: `U+000A/000D/000C/0085/2028/2029`. -/
def isLineTermCp (c : Nat) : Bool :=
  decide (c = 0x0a ∨ c = 0x0d ∨ c = 0x0c ∨ c = 0x85 ∨ c = 0x2028 ∨ c = 0x2029)

/-- The case-by-case `DOLLAR` anchor of the specification: succeed exactly
at the absolute end of input, or one code unit before a terminal line
terminator, or two code units before a terminal CR LF pair. -/
def dollarSpec (inp : List Nat) (idx : Nat) : Bool :=
  decide (idx = inp.length) ||
  (decide (idx + 1 = inp.length) && isLineTermCp (char32At inp idx)) ||
  (decide (idx + 2 = inp.length) && (charAtU inp idx == 0x0d) && (charAtU inp (idx + 1) == 0x0a))

/-- A well-behavedness check on the matches produced during a
`replaceAll` run: every successful `find` in the (fuel-bounded) loop
yields match bounds with `fMatchStart ≤ fMatchEnd ≤ inputLength`. These
bounds can be violated only through stale backtrack frames left by
earlier calls (the stack is never cleared), so the check is the explicit
hypothesis under which the identity-replacement law is proved. -/
def okRun (env : UEnv) (pat : RegexPattern) (inp : List Nat) (fuelM : Nat) :
    Nat → MatcherS → Bool
  | 0, _ => true
  | fl + 1, m =>
    match find env pat inp fuelM m with
    | .ok (true, m1) =>
      decide (m1.fMatchStart ≤ m1.fMatchEnd) && decide (m1.fMatchEnd ≤ inp.length) &&
        okRun env pat inp fuelM fl m1
    | _ => true

/-- Divergence of `replaceAll` on a fresh matcher: for every loop fuel and
every interpreter fuel the fuelled model runs out, i.e. the source loop
never terminates. -/
def replaceAllDivergesOn (env : UEnv) (pat : RegexPattern) (inp repl : List Nat) : Prop :=
  ∀ fl fuelM, replaceAll env pat inp repl fl fuelM (newMatcher pat) = .fuelOut

/-! Helper lemmas about the save-state frames and the backtrack stack. -/

/-- The capture cells pushed by a state save number exactly `2 n`. -/
theorem savedPairs_length (starts ends : List Int) : ∀ n, (savedPairs starts ends n).length = 2 * n := by
  intro n
  induction n with
  | zero => rfl
  | succ k ih =>
    simp only [savedPairs, List.length_cons, ih]
    omega

/-- A successful `applyBackTrack` removes exactly one frame of
`2 N + 2` cells from the stack. -/
theorem applyBackTrack_stack_length {N : Nat} {rs rs2 : RunState}
    (h : applyBackTrack N rs = some rs2) :
    rs2.stack.length + (2 * N + 2) = rs.stack.length := by
  simp only [applyBackTrack] at h
  split at h
  · split at h
    · rename_i starts2 ends2 p i heq
      cases h
      simp only [List.length_take]
      omega
    · cases h
  · cases h

/-- `applyBackTrack` on a successful pop preserves stack length modulo
the frame size, relative to any stack of the same length. -/
theorem applyBackTrack_stack_mod {N : Nat} {rs rs2 : RunState}
    (h : applyBackTrack N rs = some rs2) :
    rs2.stack.length % (2 * N + 2) = rs.stack.length % (2 * N + 2) := by
  have h2 := applyBackTrack_stack_length h
  rw [← h2, Nat.add_mod_right]

/-- Appending one whole frame to the stack preserves its length modulo
the frame size. -/
theorem length_append_frame (st fr : List Int) (N : Nat) (h : fr.length = 2 * N + 2) :
    (st ++ fr).length % (2 * N + 2) = st.length % (2 * N + 2) := by
  simp only [List.length_append, h, Nat.add_mod_right]

/-- One dispatch step changes the stack only by whole frames: its length
modulo the frame size `2 N + 2` is preserved into both `cont` and `done`
outcomes. -/
theorem matchStep_stack_mod (env : UEnv) (pat : RegexPattern) (inp : List Nat)
    (pm : Bool) (pme : Nat) (rs : RunState) :
    (∀ r, matchStep env pat inp pm pme rs = .cont r →
        r.stack.length % (2 * pat.fNumCaptureGroups + 2) =
          rs.stack.length % (2 * pat.fNumCaptureGroups + 2)) ∧
    (∀ b r, matchStep env pat inp pm pme rs = .done b r →
        r.stack.length % (2 * pat.fNumCaptureGroups + 2) =
          rs.stack.length % (2 * pat.fNumCaptureGroups + 2)) := by
  constructor
  · intro r h
    unfold matchStep at h
    rcases hg : pat.fCompiledPat.get? rs.patIdx with _ | op
    · rw [hg] at h; dsimp only at h; cases h
    · rw [hg] at h
      cases op <;> dsimp only at h <;>
        (try split at h) <;> (try split at h) <;> (try split at h) <;> (try split at h) <;>
        (try split at h) <;> (try split at h) <;> (try split at h) <;>
        first
          | (cases h <;> rfl)
          | (cases h <;>
              (apply length_append_frame
               simp only [List.length_append, savedPairs_length, List.length_cons,
                 List.length_nil]))
          | (rename_i hbt; cases h <;> exact applyBackTrack_stack_mod hbt)
  · intro b r h
    unfold matchStep at h
    rcases hg : pat.fCompiledPat.get? rs.patIdx with _ | op
    · rw [hg] at h; dsimp only at h; cases h
    · rw [hg] at h
      cases op <;> dsimp only at h <;>
        (try split at h) <;> (try split at h) <;> (try split at h) <;> (try split at h) <;>
        (try split at h) <;> (try split at h) <;> (try split at h) <;>
        first
          | (cases h <;> rfl)
          | (rename_i hbt; cases h <;> exact applyBackTrack_stack_mod hbt)

/-- A list element as a `some` of its `getD` value, inside bounds. -/
theorem getElem?_eq_some_getD {α : Type} (l : List α) (g : Nat) (d : α) (h : g < l.length) :
    l[g]? = some (l.getD g d) := by
  rw [List.getElem?_eq_getElem h, List.getD_eq_getElem?_getD, List.getElem?_eq_getElem h]
  rfl

/-- Reading back a pushed block of capture pairs restores exactly the
pushed values at groups `1..n`, leaves the other slots of the target
buffers alone, preserves their lengths, and leaves the cells after the
block unread. -/
theorem restoreCaps_savedPairs :
    ∀ (n : Nat) (starts ends A B tail : List Int),
      n < starts.length → n < ends.length → n < A.length → n < B.length →
      (restoreCaps A B (savedPairs starts ends n ++ tail) n).2.2 = tail ∧
      (restoreCaps A B (savedPairs starts ends n ++ tail) n).1.length = A.length ∧
      (restoreCaps A B (savedPairs starts ends n ++ tail) n).2.1.length = B.length ∧
      (∀ g, 1 ≤ g → g ≤ n →
        (restoreCaps A B (savedPairs starts ends n ++ tail) n).1[g]? = starts[g]? ∧
        (restoreCaps A B (savedPairs starts ends n ++ tail) n).2.1[g]? = ends[g]?) ∧
      (∀ g, g = 0 ∨ n < g →
        (restoreCaps A B (savedPairs starts ends n ++ tail) n).1[g]? = A[g]? ∧
        (restoreCaps A B (savedPairs starts ends n ++ tail) n).2.1[g]? = B[g]?) := by
  intro n
  induction n with
  | zero =>
    intro starts ends A B tail h1 h2 h3 h4
    refine ⟨by simp [savedPairs, restoreCaps], by simp [savedPairs, restoreCaps],
      by simp [savedPairs, restoreCaps], ?_, ?_⟩
    · intro g hg1 hg0; omega
    · intro g _
      exact ⟨by simp [savedPairs, restoreCaps], by simp [savedPairs, restoreCaps]⟩
  | succ k ih =>
    intro starts ends A B tail h1 h2 h3 h4
    have hstep : restoreCaps A B (savedPairs starts ends (k + 1) ++ tail) (k + 1) =
        restoreCaps (A.set (k + 1) (starts.getD (k + 1) 0)) (B.set (k + 1) (ends.getD (k + 1) 0))
          (savedPairs starts ends k ++ tail) k := by
      simp [savedPairs, restoreCaps]
    rw [hstep]
    obtain ⟨e1, e2, e3, e4, e5⟩ := ih starts ends
      (A.set (k + 1) (starts.getD (k + 1) 0)) (B.set (k + 1) (ends.getD (k + 1) 0)) tail
      (by omega) (by omega) (by rw [List.length_set]; omega) (by rw [List.length_set]; omega)
    refine ⟨e1, ?_, ?_, ?_, ?_⟩
    · rw [e2, List.length_set]
    · rw [e3, List.length_set]
    · intro g hg1 hgk1
      by_cases hgk : g ≤ k
      · exact e4 g hg1 hgk
      · have hg : g = k + 1 := by omega
        subst hg
        obtain ⟨f1, f2⟩ := e5 (k + 1) (Or.inr (by omega))
        constructor
        · rw [f1, List.getElem?_set_self (by omega), getElem?_eq_some_getD starts (k + 1) 0 (by omega)]
        · rw [f2, List.getElem?_set_self (by omega), getElem?_eq_some_getD ends (k + 1) 0 (by omega)]
    · intro g hg
      obtain ⟨f1, f2⟩ := e5 g (by omega)
      have hne : k + 1 ≠ g := by omega
      constructor
      · rw [f1, List.getElem?_set_ne hne]
      · rw [f2, List.getElem?_set_ne hne]

/-- The dispatch loop changes the stack only by whole frames: on any
normal exit its length modulo the frame size is what it was on entry. -/
theorem matchLoop_stack_mod (env : UEnv) (pat : RegexPattern) (inp : List Nat)
    (pm : Bool) (pme : Nat) :
    ∀ (fuel : Nat) (rs : RunState) (b : Bool) (rs2 : RunState),
      matchLoop env pat inp pm pme fuel rs = .ok (b, rs2) →
      rs2.stack.length % (2 * pat.fNumCaptureGroups + 2) =
        rs.stack.length % (2 * pat.fNumCaptureGroups + 2) := by
  intro fuel
  induction fuel with
  | zero => intro rs b rs2 h; simp [matchLoop] at h
  | succ n ih =>
    intro rs b rs2 h
    rw [matchLoop] at h
    cases hs : matchStep env pat inp pm pme rs with
    | err => rw [hs] at h; cases h
    | done bb rr =>
      rw [hs] at h
      cases h
      exact (matchStep_stack_mod env pat inp pm pme rs).2 _ _ hs
    | cont rr =>
      rw [hs] at h
      exact (ih rr b rs2 h).trans ((matchStep_stack_mod env pat inp pm pme rs).1 rr hs)

/-- Claim C2 (amended): when `MatchAt` returns normally, the backtrack
stack is not in general back at its starting depth — frames that were
saved but never backtracked over remain on it (see `c2_counterexample`).
What does hold is that the depth has changed by a whole number of frames:
the stack length modulo the frame size `2 N + 2` is exactly what it was
when the call began, on success and on failure alike. -/
theorem c2_theorem (env : UEnv) (pat : RegexPattern) (inp : List Nat) (fuel : Nat)
    (m : MatcherS) (startIdx : Nat) (m2 : MatcherS)
    (h : MatchAt env pat inp fuel m startIdx = .ok m2) :
    m2.fStack.length % (2 * pat.fNumCaptureGroups + 2) =
      m.fStack.length % (2 * pat.fNumCaptureGroups + 2) := by
  simp only [MatchAt] at h
  cases hl : matchLoop env pat inp m.fMatch m.fMatchEnd fuel
      { inputIdx := startIdx, patIdx := 0,
        capStarts := setNeg1 m.fCaptureStarts pat.fNumCaptureGroups,
        capEnds := m.fCaptureEnds, stack := m.fStack } with
  | err => rw [hl] at h; dsimp only at h; cases h
  | fuelOut => rw [hl] at h; dsimp only at h; cases h
  | ok p =>
    obtain ⟨isMatch, rs⟩ := p
    rw [hl] at h
    dsimp only at h
    have hmod := matchLoop_stack_mod env pat inp m.fMatch m.fMatchEnd fuel _ isMatch rs hl
    cases isMatch
    · rw [if_neg Bool.false_ne_true] at h
      cases h
      exact hmod
    · rw [if_pos rfl] at h
      cases h
      exact hmod

/-- Claim C2 counterexample: the pattern `[STATE_SAVE 2, END, FAIL]`
(zero capture groups, frame size 2) succeeds immediately after pushing one
frame; `MatchAt` returns with the two pushed cells still on the stack,
although it was called with an empty stack. -/
theorem c2_counterexample :
    MatchAt asciiEnv patSaveEnd [] 9 (newMatcher patSaveEnd) 0 =
      .ok { fCaptureStarts := [-1],
            fCaptureEnds := [-1],
            fMatchStart := 0,
            fMatchEnd := 0,
            fLastMatchEnd := 0,
            fMatch := true,
            fStack := [2, 0] } ∧
    (newMatcher patSaveEnd).fStack.length = 0 := by
  exact ⟨rfl, rfl⟩

/-- Claim C2 witness: the modulo-frame-size invariant evaluated on the
concrete `[STATE_SAVE 2, END, FAIL]` run. -/
theorem c2_witness :
    ({ fCaptureStarts := [-1],
       fCaptureEnds := [-1],
       fMatchStart := 0,
       fMatchEnd := 0,
       fLastMatchEnd := 0,
       fMatch := true,
       fStack := [2, 0] } : MatcherS).fStack.length %
        (2 * patSaveEnd.fNumCaptureGroups + 2) =
      (newMatcher patSaveEnd).fStack.length % (2 * patSaveEnd.fNumCaptureGroups + 2) :=
  c2_theorem asciiEnv patSaveEnd [] 9 (newMatcher patSaveEnd) 0 _ rfl

/-- Claim C3 (amended): `backTrack` performs no empty-stack check — it
unconditionally pops a full frame, so whenever fewer than
`captureStateSize = 2 N + 2` cells are on the stack there is no valid
frame to read and the pop is undefined behaviour (modelled as `none`,
which surfaces as the `err` outcome of the dispatch loop); the loop does
not exit normally with `isMatch = false` in that situation. -/
theorem c3_theorem (N : Nat) (rs : RunState) (h : rs.stack.length < 2 * N + 2) :
    applyBackTrack N rs = none := by
  simp only [applyBackTrack]
  rw [if_neg (by omega)]

/-- Claim C3 counterexample: pattern `[ONECHAR 'a', END]` on subject
`"b"` — the first opcode fails and invokes `backTrack` on the empty
stack; the run is the undefined-read outcome `err`, not a normal
`isMatch = false` exit of the dispatch loop. -/
theorem c3_counterexample :
    MatchAt asciiEnv patOneCharA [0x62] 9 (newMatcher patOneCharA) 0 = .err := rfl

/-- Claim C3 witness: the empty-stack pop evaluated at a concrete state. -/
theorem c3_witness :
    applyBackTrack 0 { inputIdx := 0,
                       patIdx := 1,
                       capStarts := [-1],
                       capEnds := [-1],
                       stack := [] } = none :=
  c3_theorem 0 _ (by decide)

/-- Claim C5: a `STATE_SAVE(target)` push followed by `backTrack` — with
arbitrary intervening mutation of the capture buffers and of the current
input/pattern positions, but no intervening stack operation — restores
every `captureStarts[g]` and `captureEnds[g]` for `g` in `1..N` to its
value at the push, restores `inputIdx` to its value at the push, sets
`patIdx` to `target`, and leaves the rest of the stack exactly as it was:
the push/pop round trip is the identity on capture state and input
position. (The source restores by reading the popped block forward in
push order, which realises exactly this inverse.) -/
theorem c5_theorem (N : Nat) (starts ends A B stack : List Int) (target inputIdx i2 p2 : Nat)
    (hs : starts.length = N + 1) (he : ends.length = N + 1)
    (hA : A.length = N + 1) (hB : B.length = N + 1) :
    ∃ S E : List Int,
      applyBackTrack N
        { inputIdx := i2, patIdx := p2, capStarts := A, capEnds := B,
          stack := stack ++ (savedPairs starts ends N ++ [(target : Int), (inputIdx : Int)]) } =
        some { inputIdx := inputIdx, patIdx := target, capStarts := S, capEnds := E,
               stack := stack } ∧
      ∀ g, 1 ≤ g → g ≤ N → S.getD g 0 = starts.getD g 0 ∧ E.getD g 0 = ends.getD g 0 := by
  obtain ⟨e1, e2, e3, e4, e5⟩ :=
    restoreCaps_savedPairs N starts ends A B [(target : Int), (inputIdx : Int)]
      (by omega) (by omega) (by omega) (by omega)
  rcases hre : restoreCaps A B (savedPairs starts ends N ++ [(target : Int), (inputIdx : Int)]) N
    with ⟨S, E, rest⟩
  rw [hre] at e1 e4
  dsimp only at e1
  subst e1
  refine ⟨S, E, ?_, ?_⟩
  · simp only [applyBackTrack]
    have hlen : (stack ++ (savedPairs starts ends N ++ [(target : Int), (inputIdx : Int)])).length
        = stack.length + (2 * N + 2) := by
      simp [savedPairs_length]
      try omega
    rw [hlen]
    rw [if_pos (by omega)]
    rw [Nat.add_sub_cancel]
    rw [List.drop_left, List.take_left, hre]
    simp [Int.toNat_natCast]
  · intro g hg1 hgN
    obtain ⟨f1, f2⟩ := e4 g hg1 hgN
    dsimp only at f1 f2
    constructor
    · rw [List.getD_eq_getElem?_getD, List.getD_eq_getElem?_getD, f1]
    · rw [List.getD_eq_getElem?_getD, List.getD_eq_getElem?_getD, f2]

/-- Claim C5 witness: the round trip evaluated at a concrete two-group
state. -/
theorem c5_witness :
    (applyBackTrack 2
      { inputIdx := 7, patIdx := 9, capStarts := [-1, 7, 8], capEnds := [-1, 9, 10],
        stack := [99] ++ (savedPairs [-1, 3, 4] [-1, 5, 6] 2 ++
          [((11 : Nat) : Int), ((12 : Nat) : Int)]) }).isSome
      = true := by
  obtain ⟨S, E, heq, hag⟩ :=
    c5_theorem 2 [-1, 3, 4] [-1, 5, 6] [-1, 7, 8] [-1, 9, 10] [99] 11 12 7 9 rfl rfl rfl rfl
  rw [heq]
  rfl

/-- End-of-loop bookkeeping of `MatchAt`: on success the match start is
the start index and `fLastMatchEnd` is the previous `fMatchEnd`; on
failure the match bounds are untouched. -/
theorem MatchAt_ok (env : UEnv) (pat : RegexPattern) (inp : List Nat) (fuel : Nat)
    (m : MatcherS) (startIdx : Nat) (m2 : MatcherS)
    (h : MatchAt env pat inp fuel m startIdx = .ok m2) :
    (m2.fMatch = true → m2.fMatchStart = startIdx ∧ m2.fLastMatchEnd = m.fMatchEnd) ∧
    (m2.fMatch = false → m2.fMatchEnd = m.fMatchEnd ∧ m2.fMatchStart = m.fMatchStart ∧
      m2.fLastMatchEnd = m.fLastMatchEnd) := by
  simp only [MatchAt] at h
  cases hl : matchLoop env pat inp m.fMatch m.fMatchEnd fuel
      { inputIdx := startIdx, patIdx := 0,
        capStarts := setNeg1 m.fCaptureStarts pat.fNumCaptureGroups,
        capEnds := m.fCaptureEnds, stack := m.fStack } with
  | err => rw [hl] at h; cases h
  | fuelOut => rw [hl] at h; cases h
  | ok p =>
    obtain ⟨isMatch, rs⟩ := p
    rw [hl] at h
    dsimp only at h
    cases isMatch
    · rw [if_neg Bool.false_ne_true] at h
      cases h
      constructor
      · intro ht; cases ht
      · intro _; exact ⟨rfl, rfl, rfl⟩
    · rw [if_pos rfl] at h
      cases h
      constructor
      · intro _; exact ⟨rfl, rfl⟩
      · intro hf; cases hf

/-- Claim C6: `matches()` is exactly "reset, run `MatchAt(0)`, report
`fMatch && fMatchEnd == inputLength`", and a true result implies the
match spans the whole subject: `fMatchStart = 0` and
`fMatchEnd = inputLength`. -/
theorem c6_theorem (env : UEnv) (pat : RegexPattern) (inp : List Nat) (fuelM : Nat)
    (m : MatcherS) (b : Bool) (m1 : MatcherS)
    (h : matchesAll env pat inp fuelM m = .ok (b, m1)) :
    matchesAll env pat inp fuelM m =
      (match MatchAt env pat inp fuelM (resetM pat m) 0 with
       | .err => .err
       | .fuelOut => .fuelOut
       | .ok m2 => .ok (m2.fMatch && decide (m2.fMatchEnd = inp.length), m2)) ∧
    b = (m1.fMatch && decide (m1.fMatchEnd = inp.length)) ∧
    (b = true → m1.fMatch = true ∧ m1.fMatchStart = 0 ∧ m1.fMatchEnd = inp.length) := by
  refine ⟨rfl, ?_, ?_⟩
  · simp only [matchesAll] at h
    cases ha : MatchAt env pat inp fuelM (resetM pat m) 0 with
    | err => rw [ha] at h; cases h
    | fuelOut => rw [ha] at h; cases h
    | ok m2 =>
      rw [ha] at h
      rw [MRes.ok.injEq, Prod.mk.injEq] at h
      obtain ⟨hb2, hm12⟩ := h
      subst hm12
      exact hb2.symm
  · intro hb
    simp only [matchesAll] at h
    cases ha : MatchAt env pat inp fuelM (resetM pat m) 0 with
    | err => rw [ha] at h; cases h
    | fuelOut => rw [ha] at h; cases h
    | ok m2 =>
      rw [ha] at h
      rw [MRes.ok.injEq, Prod.mk.injEq] at h
      obtain ⟨hb2, hm12⟩ := h
      subst hm12
      rw [hb] at hb2
      rw [Bool.and_eq_true] at hb2
      obtain ⟨hm, hend⟩ := hb2
      have hend2 : m2.fMatchEnd = inp.length := of_decide_eq_true hend
      have hstart := ((MatchAt_ok env pat inp fuelM (resetM pat m) 0 m2 ha).1 hm).1
      exact ⟨hm, hstart, hend2⟩

/-- Claim C6 witness: the pattern `[DOTANY, END]` on the one-character
subject `"a"` — `matches()` reports true with the whole-subject bounds. -/
theorem c6_witness :
    ({ fCaptureStarts := [-1],
       fCaptureEnds := [-1],
       fMatchStart := 0,
       fMatchEnd := 1,
       fLastMatchEnd := 0,
       fMatch := true,
       fStack := [] } : MatcherS).fMatch = true ∧
    ({ fCaptureStarts := [-1],
       fCaptureEnds := [-1],
       fMatchStart := 0,
       fMatchEnd := 1,
       fLastMatchEnd := 0,
       fMatch := true,
       fStack := [] } : MatcherS).fMatchStart = 0 ∧
    ({ fCaptureStarts := [-1],
       fCaptureEnds := [-1],
       fMatchStart := 0,
       fMatchEnd := 1,
       fLastMatchEnd := 0,
       fMatch := true,
       fStack := [] } : MatcherS).fMatchEnd = [0x61].length :=
  (c6_theorem asciiEnv patDot [0x61] 9 (newMatcher patDot) true _ rfl).2.2 rfl

/-- Claim C9: on an empty subject `find()` returns false for every
pattern and environment without invoking the interpreter at all (it
succeeds even with zero interpreter fuel, and the matcher state is
returned unchanged), while `matches()` and `lookingAt()` still run
`MatchAt(0)` and return true for a pattern that matches the empty string
(`[END]`); on empty input `find()` and `matches()` therefore disagree
about the existence of a match. -/
theorem c9_theorem :
    (∀ (env : UEnv) (pat : RegexPattern) (m : MatcherS),
        find env pat ([] : List Nat) 0 m = .ok (false, m)) ∧
    matchesAll asciiEnv patEnd [] 1 (newMatcher patEnd) =
      .ok (true, { fCaptureStarts := [-1],
                   fCaptureEnds := [-1],
                   fMatchStart := 0,
                   fMatchEnd := 0,
                   fLastMatchEnd := 0,
                   fMatch := true,
                   fStack := [] }) ∧
    lookingAt asciiEnv patEnd [] 1 (newMatcher patEnd) =
      .ok (true, { fCaptureStarts := [-1],
                   fCaptureEnds := [-1],
                   fMatchStart := 0,
                   fMatchEnd := 0,
                   fLastMatchEnd := 0,
                   fMatch := true,
                   fStack := [] }) ∧
    find asciiEnv patEnd [] 9 (newMatcher patEnd) = .ok (false, newMatcher patEnd) := by
  refine ⟨?_, rfl, rfl, rfl⟩
  intro env pat m
  rw [find, findFrom]
  simp

/-- Claim C1 (amended): with pattern `\b` on subject `"a b"`, any
`find()` issued while `fMatchEnd = 0` — i.e. the first one after a reset
and every one following the zero-width match at 0 — succeeds again at
position 0 with a zero-width match, pushing one more saved frame; the
scan position never advances, so the claimed sequence of hits at 1, 2
and 3 never happens. Moreover the boundary at position 3 (= inputLength)
is invisible to the engine: `isWordBoundary` is false at or past the end
of input, and `find` only scans positions strictly below inputLength. -/
theorem c1_theorem (m : MatcherS) (h : m.fMatchEnd = 0) :
    find asciiEnv patB inpAB 9 m =
      .ok (true, { fCaptureStarts := setNeg1 m.fCaptureStarts 0,
                   fCaptureEnds := m.fCaptureEnds,
                   fMatchStart := 0,
                   fMatchEnd := 0,
                   fLastMatchEnd := 0,
                   fMatch := true,
                   fStack := m.fStack ++ [3, 0] }) ∧
    isWordBoundary asciiEnv patB inpAB 3 = false := by
  obtain ⟨cs, ce, ms, me, lme, fm, st⟩ := m
  simp only at h
  subst h
  exact ⟨rfl, rfl⟩

/-- Claim C1 counterexample: from a fresh matcher, the first `find()`
matches at position 0; the second `find()` matches at position 0 again
(not at position 1 as the claim states), because the zero-width match
left `fMatchEnd = 0` and `find` rescans from `fMatchEnd`. -/
theorem c1_counterexample :
    find asciiEnv patB inpAB 9 (newMatcher patB) =
      .ok (true, { fCaptureStarts := [-1],
                   fCaptureEnds := [-1],
                   fMatchStart := 0,
                   fMatchEnd := 0,
                   fLastMatchEnd := 0,
                   fMatch := true,
                   fStack := [3, 0] }) ∧
    find asciiEnv patB inpAB 9
        { fCaptureStarts := [-1],
          fCaptureEnds := [-1],
          fMatchStart := 0,
          fMatchEnd := 0,
          fLastMatchEnd := 0,
          fMatch := true,
          fStack := [3, 0] } =
      .ok (true, { fCaptureStarts := [-1],
                   fCaptureEnds := [-1],
                   fMatchStart := 0,
                   fMatchEnd := 0,
                   fLastMatchEnd := 0,
                   fMatch := true,
                   fStack := [3, 0, 3, 0] }) ∧
    ({ fCaptureStarts := [-1],
       fCaptureEnds := [-1],
       fMatchStart := 0,
       fMatchEnd := 0,
       fLastMatchEnd := 0,
       fMatch := true,
       fStack := [3, 0, 3, 0] } : MatcherS).fMatchStart ≠ 1 := by
  exact ⟨rfl, rfl, by decide⟩

/-- Claim C1 witness: the amended statement evaluated on the fresh
matcher. -/
theorem c1_witness :
    find asciiEnv patB inpAB 9 (newMatcher patB) =
      .ok (true, { fCaptureStarts := setNeg1 (newMatcher patB).fCaptureStarts 0,
                   fCaptureEnds := (newMatcher patB).fCaptureEnds,
                   fMatchStart := 0,
                   fMatchEnd := 0,
                   fLastMatchEnd := 0,
                   fMatch := true,
                   fStack := (newMatcher patB).fStack ++ [3, 0] }) ∧
    isWordBoundary asciiEnv patB inpAB 3 = false :=
  c1_theorem (newMatcher patB) rfl

/-- `getD` with one default equals `getD` with another inside bounds. -/
theorem getD_default_irrel (s : List Nat) (i : Nat) (h : i < s.length) (d1 d2 : Nat) :
    s.getD i d1 = s.getD i d2 := by
  rw [List.getD_eq_getElem?_getD, List.getD_eq_getElem?_getD, List.getElem?_eq_getElem h]
  rfl

/-- `char32At` at a non-surrogate code unit is that code unit, whatever
the neighbouring units are. -/
theorem char32At_nonsurrogate (s : List Nat) (i : Nat) (hi : i < s.length)
    (h1 : ¬ isLead (s.getD i 0)) (h2 : ¬ isTrail (s.getD i 0)) :
    char32At s i = s.getD i 0 := by
  simp only [char32At, if_pos hi]
  rw [if_neg (by intro hc; exact h1 hc.1), if_neg (by intro hc; exact h2 hc.1)]

/-- A combined surrogate pair is at least `0x10000`. -/
theorem supplementary_ge (l t : Nat) : 0x10000 ≤ supplementary l t := by
  simp only [supplementary]
  omega

/-- `char32At` equals a BMP, non-surrogate value iff the code unit there
is that value (a surrogate pair combines to at least `0x10000`, and a
surrogate unit is at least `0xD800`). -/
theorem char32At_eq_bmp (s : List Nat) (i : Nat) (c : Nat) (hi : i < s.length)
    (hc : c < 0xD800) :
    (char32At s i = c ↔ s.getD i 0 = c) := by
  by_cases h1 : isLead (s.getD i 0)
  · have hu : 0xD800 ≤ s.getD i 0 := by
      simp only [isLead, decide_eq_true_eq] at h1
      omega
    constructor
    · intro hc32
      exfalso
      simp only [char32At, if_pos hi] at hc32
      split at hc32
      · have := supplementary_ge (s.getD i 0) (s.getD (i + 1) 0)
        omega
      · split at hc32
        · have := supplementary_ge (s.getD (i - 1) 0) (s.getD i 0)
          omega
        · omega
    · intro he; omega
  · by_cases h2 : isTrail (s.getD i 0)
    · have hu : 0xD800 ≤ s.getD i 0 := by
        simp only [isTrail, decide_eq_true_eq] at h2
        omega
      constructor
      · intro hc32
        exfalso
        simp only [char32At, if_pos hi] at hc32
        split at hc32
        · have := supplementary_ge (s.getD i 0) (s.getD (i + 1) 0)
          omega
        · split at hc32
          · have := supplementary_ge (s.getD (i - 1) 0) (s.getD i 0)
            omega
          · omega
      · intro he; omega
    · rw [char32At_nonsurrogate s i hi h1 h2]

/-- Claim C7: the source's early-exit formulation of the `DOLLAR` anchor
is equivalent, at every in-bounds position, to the case-by-case
definition: succeed exactly at the absolute end of input, or one code
unit before a terminal line terminator, or two code units before a
terminal CR LF pair; fail everywhere else (in particular at every
position with `inputIdx < inputLength - 2`). -/
theorem c7_theorem (inp : List Nat) (idx : Nat) (h : idx ≤ inp.length) :
    dollarHit inp idx = dollarSpec inp idx := by
  rcases (by omega : idx = inp.length ∨ idx + 1 = inp.length ∨ idx + 2 = inp.length ∨
      idx + 3 ≤ inp.length) with h0 | h0 | h0 | h0
  · simp only [dollarHit, dollarSpec, isLineTermCp, charAtU]
    rw [if_neg (by push_cast; omega), if_pos (by push_cast; omega)]
    simp [h0]
  · simp only [dollarHit, dollarSpec, isLineTermCp, charAtU]
    rw [if_neg (by push_cast; omega), if_neg (by push_cast; omega)]
    by_cases hP : char32At inp idx = 0x0a ∨ char32At inp idx = 0x0d ∨
        char32At inp idx = 0x0c ∨ char32At inp idx = 0x85 ∨
        char32At inp idx = 0x2028 ∨ char32At inp idx = 0x2029
    · rw [if_pos ⟨by push_cast; omega, hP⟩]
      simp only [decide_eq_true_eq] at *
      have hd1 : decide (idx = inp.length) = false := by simp; omega
      have hd2 : decide (idx + 1 = inp.length) = true := by simp [h0]
      rw [hd1, hd2]
      simp [hP]
    · rw [if_neg (by intro hc; exact hP hc.2), if_neg (by push_cast; omega)]
      have hd1 : decide (idx = inp.length) = false := by simp; omega
      have hd3 : decide (idx + 2 = inp.length) = false := by simp; omega
      rw [hd1, hd3]
      simp [hP]
  · simp only [dollarHit, dollarSpec, isLineTermCp, charAtU]
    rw [if_neg (by push_cast; omega), if_neg (by push_cast; omega),
      if_neg (by intro hc; obtain ⟨hc1, _⟩ := hc; push_cast at hc1; omega)]
    have hi : idx < inp.length := by omega
    have hi1 : idx + 1 < inp.length := by omega
    have hcr := char32At_eq_bmp inp idx 0x0d hi (by omega)
    have hlf := char32At_eq_bmp inp (idx + 1) 0x0a hi1 (by omega)
    have hd1 : decide (idx = inp.length) = false := by simp; omega
    have hd2 : decide (idx + 1 = inp.length) = false := by simp; omega
    have hd3 : decide (idx + 2 = inp.length) = true := by simp [h0]
    by_cases hCR : char32At inp idx = 0x0d ∧ char32At inp (idx + 1) = 0x0a
    · rw [if_pos ⟨by push_cast; omega, hCR.1, hCR.2⟩]
      rw [hd1, hd2, hd3]
      have hu1 : inp.getD idx 0xFFFF = 0x0d := by
        rw [getD_default_irrel inp idx hi 0xFFFF 0]
        exact hcr.mp hCR.1
      have hu2 : inp.getD (idx + 1) 0xFFFF = 0x0a := by
        rw [getD_default_irrel inp (idx + 1) hi1 0xFFFF 0]
        exact hlf.mp hCR.2
      rw [List.getD_eq_getElem?_getD] at hu1 hu2
      simp [hu1, hu2]
    · rw [if_neg (by intro hc; exact hCR ⟨hc.2.1, hc.2.2⟩)]
      rw [hd1, hd2, hd3]
      simp only [Bool.false_and, Bool.or_false, Bool.false_or, Bool.true_and]
      rw [eq_comm, Bool.and_eq_false_iff]
      rcases (by tauto : ¬ char32At inp idx = 0x0d ∨ ¬ char32At inp (idx + 1) = 0x0a) with hx | hx
      · left
        simp only [beq_eq_false_iff_ne, ne_eq]
        intro hu
        exact hx (hcr.mpr (by rw [getD_default_irrel inp idx hi 0 0xFFFF]; exact hu))
      · right
        simp only [beq_eq_false_iff_ne, ne_eq]
        intro hu
        exact hx (hlf.mpr (by rw [getD_default_irrel inp (idx + 1) hi1 0 0xFFFF]; exact hu))
  · simp only [dollarHit, dollarSpec, isLineTermCp, charAtU]
    rw [if_pos (by push_cast; omega)]
    have hd1 : decide (idx = inp.length) = false := by simp; omega
    have hd2 : decide (idx + 1 = inp.length) = false := by simp; omega
    have hd3 : decide (idx + 2 = inp.length) = false := by simp; omega
    rw [hd1, hd2, hd3]
    simp

/-- Claim C7 witness: the anchor evaluated just before a terminal line
feed (`"a\n"`, position 1) and at the absolute end (position 2). -/
theorem c7_witness :
    dollarHit [0x61, 0x0a] 1 = dollarSpec [0x61, 0x0a] 1 ∧
    dollarHit [0x61, 0x0a] 2 = dollarSpec [0x61, 0x0a] 2 :=
  ⟨c7_theorem [0x61, 0x0a] 1 (by decide), c7_theorem [0x61, 0x0a] 2 (by decide)⟩

/-- Claim C8: `start(g)` and `end(g)` signal `U_REGEX_INVALID_STATE` and
return -1 without a match; they signal `U_INDEX_OUTOFBOUNDS_ERROR` and
return -1 for `g < 0` or `g > N`; for a valid `g` under a successful
match they return the whole-match bounds at `g = 0` and otherwise
`fCaptureStarts[g]` and its corresponding end, both returning -1 for a
non-participating group; `group(g)` is special-cased to the empty string
exactly in the non-participating case and otherwise returns the
substring of the input over `[start(g), end(g))` (and forwards the
errors, returning empty there too). -/
theorem c8_theorem (pat : RegexPattern) (inp : List Nat) (m : MatcherS) (g : Int) :
    (m.fMatch = false →
      startG pat m g .U_ZERO_ERROR = (-1, .U_REGEX_INVALID_STATE) ∧
      endG pat m g .U_ZERO_ERROR = (-1, .U_REGEX_INVALID_STATE) ∧
      groupG pat inp m g .U_ZERO_ERROR = ([], .U_REGEX_INVALID_STATE)) ∧
    (m.fMatch = true → (g < 0 ∨ (pat.fNumCaptureGroups : Int) < g) →
      startG pat m g .U_ZERO_ERROR = (-1, .U_INDEX_OUTOFBOUNDS_ERROR) ∧
      endG pat m g .U_ZERO_ERROR = (-1, .U_INDEX_OUTOFBOUNDS_ERROR) ∧
      groupG pat inp m g .U_ZERO_ERROR = ([], .U_INDEX_OUTOFBOUNDS_ERROR)) ∧
    (m.fMatch = true →
      startG pat m 0 .U_ZERO_ERROR = ((m.fMatchStart : Int), .U_ZERO_ERROR) ∧
      endG pat m 0 .U_ZERO_ERROR = ((m.fMatchEnd : Int), .U_ZERO_ERROR)) ∧
    (m.fMatch = true → 1 ≤ g → g ≤ (pat.fNumCaptureGroups : Int) →
      startG pat m g .U_ZERO_ERROR = (m.fCaptureStarts.getD g.toNat 0, .U_ZERO_ERROR) ∧
      (m.fCaptureStarts.getD g.toNat 0 = -1 →
        endG pat m g .U_ZERO_ERROR = (-1, .U_ZERO_ERROR) ∧
        groupG pat inp m g .U_ZERO_ERROR = ([], .U_ZERO_ERROR)) ∧
      (m.fCaptureStarts.getD g.toNat 0 ≠ -1 →
        endG pat m g .U_ZERO_ERROR = (m.fCaptureEnds.getD g.toNat 0, .U_ZERO_ERROR)) ∧
      (0 ≤ m.fCaptureStarts.getD g.toNat 0 →
        groupG pat inp m g .U_ZERO_ERROR =
          ((inp.drop (m.fCaptureStarts.getD g.toNat 0).toNat).take
              (m.fCaptureEnds.getD g.toNat 0 - m.fCaptureStarts.getD g.toNat 0).toNat,
            .U_ZERO_ERROR))) := by
  refine ⟨?_, ?_, ?_, ?_⟩
  · intro hm
    refine ⟨?_, ?_, ?_⟩ <;> simp [startG, endG, groupG, hm]
  · intro hm hg
    refine ⟨?_, ?_, ?_⟩ <;> simp [startG, endG, groupG, hm, hg]
  · intro hm
    constructor <;> simp [startG, endG, hm] <;> omega
  · intro hm hg1 hgN
    have hnotoob : ¬(g < 0 ∨ (pat.fNumCaptureGroups : Int) < g) := by omega
    have hg0 : ¬(g = 0) := by omega
    refine ⟨?_, ?_, ?_, ?_⟩
    · simp [startG, hm, hnotoob, hg0]
    · intro hnp
      rw [List.getD_eq_getElem?_getD] at hnp
      constructor
      · simp [endG, hm, hnotoob, hg0, hnp]
      · simp [groupG, startG, endG, hm, hnotoob, hg0, hnp]
    · intro hp
      rw [List.getD_eq_getElem?_getD] at hp
      simp [endG, hm, hnotoob, hg0, hp]
    · intro hp
      have hnp : ¬(m.fCaptureStarts.getD g.toNat 0 = -1) := by omega
      have hlt : ¬(m.fCaptureStarts.getD g.toNat 0 < 0) := by omega
      rw [List.getD_eq_getElem?_getD] at hnp hlt
      simp [groupG, startG, endG, hm, hnotoob, hg0, hnp, hlt]

/-- Claim C8 witness: a one-group state with `fCaptureStarts[1] = 2`,
`fCaptureEnds[1] = 5` over the subject `[10, 11, 12, 13, 14, 15, 16]`. -/
theorem c8_witness :
    startG patOneGroup
        { fCaptureStarts := [-1, 2],
          fCaptureEnds := [-1, 5],
          fMatchStart := 1,
          fMatchEnd := 6,
          fLastMatchEnd := 0,
          fMatch := true,
          fStack := [] } 1 .U_ZERO_ERROR = (2, .U_ZERO_ERROR) ∧
    groupG patOneGroup [10, 11, 12, 13, 14, 15, 16]
        { fCaptureStarts := [-1, 2],
          fCaptureEnds := [-1, 5],
          fMatchStart := 1,
          fMatchEnd := 6,
          fLastMatchEnd := 0,
          fMatch := true,
          fStack := [] } 1 .U_ZERO_ERROR = ([12, 13, 14], .U_ZERO_ERROR) := by
  have h := c8_theorem patOneGroup [10, 11, 12, 13, 14, 15, 16]
      { fCaptureStarts := [-1, 2],
        fCaptureEnds := [-1, 5],
        fMatchStart := 1,
        fMatchEnd := 6,
        fLastMatchEnd := 0,
        fMatch := true,
        fStack := [] } 1
  obtain ⟨hs, _, _, hsub⟩ := (h.2.2.2 rfl (by decide) (by decide))
  refine ⟨hs, ?_⟩
  rw [hsub (by decide)]
  rfl

/-- `getD` through `drop` reads at the shifted index. -/
theorem getD_of_drop (l : List Nat) (i j d : Nat) :
    (l.drop i).getD j d = l.getD (i + j) d := by
  rw [List.getD_eq_getElem?_getD, List.getD_eq_getElem?_getD, List.getElem?_drop]

/-- The replacement-text scan, arriving at a `$`-reference whose single
digit names a group number above `fNumCaptureGroups` after a run of
plain code units: it appends the plain run, the `group` call fails with
`U_INDEX_OUTOFBOUNDS_ERROR` (appending the empty string), and the scan
stops — the text after the reference is never processed and `dest` is
not restored. -/
theorem applRScan_stops_at_bad_group (env : UEnv) (pat : RegexPattern) (inp : List Nat)
    (m : MatcherS) (repl post : List Nat) (d : Nat)
    (hm : m.fMatch = true) (hmax : pat.fMaxCaptureDigits = 1)
    (hd : env.uIsDigit d = true) (hd1 : 0x30 ≤ d) (hd2 : d ≤ 0x39)
    (hgt : (pat.fNumCaptureGroups : Int) < env.uCharDigitValue d) :
    ∀ (preRem : List Nat) (fuel k : Nat) (dest : List Nat),
      (∀ c ∈ preRem, c ≠ 0x5c ∧ c ≠ 0x24) →
      repl.drop k = preRem ++ 0x24 :: d :: post →
      preRem.length + 1 ≤ fuel →
      applRScan env pat inp m repl fuel dest k =
        (dest ++ preRem, .U_INDEX_OUTOFBOUNDS_ERROR) := by
  intro preRem
  induction preRem with
  | nil =>
    intro fuel k dest hplain hdrop hfuel
    obtain ⟨f, rfl⟩ : ∃ f, fuel = f + 1 := ⟨fuel - 1, by omega⟩
    have hlen2 := congrArg List.length hdrop
    simp only [List.length_drop, List.nil_append, List.length_cons] at hlen2
    have hklen : repl.length = k + 2 + post.length := by omega
    have hu24 : repl.getD (k + 0) 0xFFFF = 0x24 := by
      rw [← getD_of_drop, hdrop]
      rfl
    have hud : repl.getD (k + 1) 0 = d := by
      rw [← getD_of_drop, hdrop]
      rfl
    have hc32 : char32At repl (k + 1) = d := by
      rw [char32At_nonsurrogate repl (k + 1) (by omega)
        (by rw [hud]; simp [isLead]; omega) (by rw [hud]; simp [isTrail]; omega)]
      exact hud
    have hfwd : fwd1 repl (k + 1) = k + 2 := by
      simp only [fwd1]
      rw [if_neg (by rw [hud]; intro hc; have := hc.1; simp [isLead] at this; omega)]
      omega
    have hparse : parseGroupDigits env pat repl (repl.length + 1) (k + 1) 0 0 =
        (k + 2, env.uCharDigitValue d, 1) := by
      simp only [parseGroupDigits]
      rw [if_neg (by omega), hc32]
      rw [if_neg (by simp [hd]), hfwd]
      rw [if_pos (by omega)]
      simp
    have hgroup : groupG pat inp m (env.uCharDigitValue d) .U_ZERO_ERROR =
        ([], .U_INDEX_OUTOFBOUNDS_ERROR) := by
      have hoob : env.uCharDigitValue d < 0 ∨ (pat.fNumCaptureGroups : Int) <
          env.uCharDigitValue d := Or.inr hgt
      simp [groupG, startG, endG, hm, hoob]
    simp only [applRScan]
    rw [if_pos (by omega)]
    simp only [charAtU]
    rw [show repl.getD k 0xFFFF = 0x24 by simpa using hu24]
    rw [if_neg (by decide), if_neg (by decide), hparse]
    simp [hgroup]
  | cons c pr ih =>
    intro fuel k dest hplain hdrop hfuel
    obtain ⟨f, rfl⟩ : ∃ f, fuel = f + 1 :=
      ⟨fuel - 1, by simp only [List.length_cons] at hfuel; omega⟩
    have hlen2 := congrArg List.length hdrop
    simp only [List.length_drop, List.cons_append, List.length_cons] at hlen2
    have hk : k < repl.length := by
      simp [List.length_append] at hlen2
      omega
    have huc : repl.getD (k + 0) 0xFFFF = c := by
      rw [← getD_of_drop, hdrop]
      rfl
    have hdrop2 : repl.drop (k + 1) = pr ++ 0x24 :: d :: post := by
      have := congrArg List.tail hdrop
      rw [List.tail_drop] at this
      simpa using this
    obtain ⟨hc5c, hc24⟩ := hplain c (by simp)
    simp only [applRScan]
    rw [if_pos hk]
    simp only [charAtU]
    rw [show repl.getD k 0xFFFF = c by simpa using huc]
    rw [if_neg hc5c, if_pos hc24]
    rw [ih f (k + 1) (dest ++ [c]) (fun x hx => hplain x (by simp [hx]))
      hdrop2 (by simp only [List.length_cons] at hfuel; omega)]
    simp

/-- Claim C10: in a matching state, a replacement text of the form
`pre ++ "$d" ++ post` — `pre` plain text, digit `d` naming a group
number above `fNumCaptureGroups` — makes `appendReplacement` set
`U_INDEX_OUTOFBOUNDS_ERROR` and stop processing (`post` is never
scanned), but `dest` is not restored: it keeps the between-match input
text and everything appended before the invalid reference. -/
theorem c10_theorem (env : UEnv) (pat : RegexPattern) (inp : List Nat) (m : MatcherS)
    (dest pre post : List Nat) (d : Nat)
    (hm : m.fMatch = true) (hmax : pat.fMaxCaptureDigits = 1)
    (hd : env.uIsDigit d = true) (hd1 : 0x30 ≤ d) (hd2 : d ≤ 0x39)
    (hgt : (pat.fNumCaptureGroups : Int) < env.uCharDigitValue d)
    (hpre : ∀ c ∈ pre, c ≠ 0x5c ∧ c ≠ 0x24) :
    appendReplacement env pat inp m dest (pre ++ 0x24 :: d :: post) .U_ZERO_ERROR =
      ((if (0 : Int) < (m.fMatchStart : Int) - (m.fLastMatchEnd : Int) then
          dest ++ (inp.drop m.fLastMatchEnd).take
            ((m.fMatchStart : Int) - (m.fLastMatchEnd : Int)).toNat
        else dest) ++ pre,
       .U_INDEX_OUTOFBOUNDS_ERROR) := by
  unfold appendReplacement
  rw [if_neg (by simp), if_neg (by simp [hm])]
  exact applRScan_stops_at_bad_group env pat inp m (pre ++ 0x24 :: d :: post) post d
    hm hmax hd hd1 hd2 hgt pre ((pre ++ 0x24 :: d :: post).length + 1) 0 _
    hpre (by simp) (by simp only [List.length_append, List.length_cons]; omega)

/-- Claim C10 witness: replacement `"a$9b"` against the zero-group
pattern `[DOTANY, END]` in a matched state over `"a"` — the output holds
the leading `"a"` and the status is `U_INDEX_OUTOFBOUNDS_ERROR`; the
trailing `"b"` was never processed. -/
theorem c10_witness :
    appendReplacement asciiEnv patDot [0x61]
        { fCaptureStarts := [-1],
          fCaptureEnds := [-1],
          fMatchStart := 0,
          fMatchEnd := 1,
          fLastMatchEnd := 0,
          fMatch := true,
          fStack := [] }
        [] ([0x61] ++ 0x24 :: 0x39 :: [0x62]) .U_ZERO_ERROR =
      ([0x61], .U_INDEX_OUTOFBOUNDS_ERROR) := by
  rw [c10_theorem asciiEnv patDot [0x61]
    { fCaptureStarts := [-1],
      fCaptureEnds := [-1],
      fMatchStart := 0,
      fMatchEnd := 1,
      fLastMatchEnd := 0,
      fMatch := true,
      fStack := [] }
    [] [0x61] [0x62] 0x39 rfl rfl rfl (by decide) (by decide) (by decide) (by decide)]
  rfl

/-- `moveIndex32(i, 1)` strictly advances inside the string. -/
theorem fwd1_gt (s : List Nat) (i : Nat) (h : i < s.length) : i < fwd1 s i := by
  unfold fwd1
  split <;> omega

/-- A successful `findFrom` scan reports a match: the match flag is set,
the match starts no earlier than the scan start, and `fLastMatchEnd` is
the `fMatchEnd` the scan began with. -/
theorem findFrom_true (env : UEnv) (pat : RegexPattern) (inp : List Nat) (fuelM : Nat) :
    ∀ (fl : Nat) (m : MatcherS) (sp : Nat) (m1 : MatcherS),
      findFrom env pat inp fuelM fl m sp = .ok (true, m1) →
      m1.fMatch = true ∧ sp ≤ m1.fMatchStart ∧ m1.fLastMatchEnd = m.fMatchEnd := by
  intro fl
  induction fl with
  | zero => intro m sp m1 h; cases h
  | succ n ih =>
    intro m sp m1 h
    simp only [findFrom] at h
    split at h
    · rename_i hsp
      cases ha : MatchAt env pat inp fuelM m sp with
      | err => rw [ha] at h; cases h
      | fuelOut => rw [ha] at h; cases h
      | ok mk =>
        rw [ha] at h
        dsimp only at h
        split at h
        · rename_i hfm
          cases h
          have hst := ((MatchAt_ok env pat inp fuelM m sp m1 ha).1 hfm)
          exact ⟨hfm, le_of_eq hst.1.symm, hst.2⟩
        · rename_i hfm
          have hfm2 : mk.fMatch = false := by revert hfm; cases mk.fMatch <;> simp
          obtain ⟨e1, e2, e3⟩ := ih mk (fwd1 inp sp) m1 h
          have hke := ((MatchAt_ok env pat inp fuelM m sp mk ha).2 hfm2).1
          refine ⟨e1, le_trans (le_of_lt (fwd1_gt inp sp hsp)) e2, ?_⟩
          rw [e3, hke]
    · cases h

/-- A failed `findFrom` scan leaves `fMatchEnd` unchanged. -/
theorem findFrom_false (env : UEnv) (pat : RegexPattern) (inp : List Nat) (fuelM : Nat) :
    ∀ (fl : Nat) (m : MatcherS) (sp : Nat) (m1 : MatcherS),
      findFrom env pat inp fuelM fl m sp = .ok (false, m1) →
      m1.fMatchEnd = m.fMatchEnd := by
  intro fl
  induction fl with
  | zero => intro m sp m1 h; cases h
  | succ n ih =>
    intro m sp m1 h
    simp only [findFrom] at h
    split at h
    · cases ha : MatchAt env pat inp fuelM m sp with
      | err => rw [ha] at h; cases h
      | fuelOut => rw [ha] at h; cases h
      | ok mk =>
        rw [ha] at h
        dsimp only at h
        split at h
        · cases h
        · rename_i hfm
          have hfm2 : mk.fMatch = false := by revert hfm; cases mk.fMatch <;> simp
          have hke := ((MatchAt_ok env pat inp fuelM m sp mk ha).2 hfm2).1
          rw [ih mk (fwd1 inp sp) m1 h, hke]
    · cases h
      rfl

/-- `appendReplacement` with replacement text `"$0"` appends exactly the
input between the previous match end and the match start, followed by the
matched substring itself. -/
theorem appendReplacement_dollar0 (env : UEnv) (pat : RegexPattern) (inp : List Nat)
    (m : MatcherS) (dest : List Nat)
    (hm : m.fMatch = true)
    (hdig : env.uIsDigit 0x30 = true) (hval : env.uCharDigitValue 0x30 = 0)
    (hle : m.fLastMatchEnd ≤ m.fMatchStart) (hse : m.fMatchStart ≤ m.fMatchEnd) :
    appendReplacement env pat inp m dest replDollar0 .U_ZERO_ERROR =
      (dest ++ (inp.drop m.fLastMatchEnd).take (m.fMatchStart - m.fLastMatchEnd) ++
        (inp.drop m.fMatchStart).take (m.fMatchEnd - m.fMatchStart), .U_ZERO_ERROR) := by
  have hparse : parseGroupDigits env pat replDollar0 (replDollar0.length + 1) 1 0 0 =
      (2, 0, 1) := by
    by_cases hmx : 1 ≥ pat.fMaxCaptureDigits
    · simp only [parseGroupDigits]
      rw [if_neg (by decide)]
      rw [show char32At replDollar0 1 = 0x30 from rfl]
      rw [if_neg (by simp [hdig])]
      rw [if_pos hmx, show fwd1 replDollar0 1 = 2 from rfl]
      simp [hval]
    · simp only [parseGroupDigits]
      rw [if_neg (by decide)]
      rw [show char32At replDollar0 1 = 0x30 from rfl]
      rw [if_neg (by simp [hdig])]
      rw [if_neg hmx, show fwd1 replDollar0 1 = 2 from rfl]
      rw [show replDollar0.length = 1 + 1 from rfl]
      rw [if_pos (by decide)]
      simp [hval]
  have htn : ((m.fMatchEnd : Int) - (m.fMatchStart : Int)).toNat =
      m.fMatchEnd - m.fMatchStart := by omega
  have hgroup0 : groupG pat inp m 0 .U_ZERO_ERROR =
      ((inp.drop m.fMatchStart).take (m.fMatchEnd - m.fMatchStart), .U_ZERO_ERROR) := by
    have hnn : ¬((pat.fNumCaptureGroups : Int) < 0) := by omega
    have hms : ¬((m.fMatchStart : Int) < 0) := by omega
    simp [groupG, startG, endG, hm, htn, hnn, hms]
  have hscan : ∀ dest1, applRScan env pat inp m replDollar0 (replDollar0.length + 1) dest1 0 =
      (dest1 ++ (inp.drop m.fMatchStart).take (m.fMatchEnd - m.fMatchStart),
        .U_ZERO_ERROR) := by
    intro dest1
    simp only [applRScan]
    rw [if_pos (by decide)]
    rw [show charAtU replDollar0 0 = 0x24 from rfl]
    rw [if_neg (by decide), if_neg (by decide), hparse]
    try dsimp only
    rw [if_neg (by decide)]
    rw [hgroup0]
    try dsimp only
    rw [if_neg (by decide)]
    rw [show replDollar0.length = 1 + 1 from rfl]
    rw [if_neg (by decide)]
  unfold appendReplacement
  rw [if_neg (by simp), if_neg (by simp [hm]), hscan]
  by_cases hbet : m.fLastMatchEnd < m.fMatchStart
  · rw [if_pos (by omega)]
    rw [show ((m.fMatchStart : Int) - (m.fLastMatchEnd : Int)).toNat =
      m.fMatchStart - m.fLastMatchEnd by omega]
  · rw [if_neg (by omega)]
    have hz : m.fMatchStart - m.fLastMatchEnd = 0 := by omega
    rw [hz]
    simp

/-- The `replaceAll` loop maintains "`dest` is the input up to
`fMatchEnd`" across each `find` + `appendReplacement("$0")` round,
provided each found match satisfies the bounds checked by `okRun`; on a
normal loop exit the status is clean and the result prefix is the input
up to the final `fMatchEnd`. -/
theorem replaceAllLoop_id (env : UEnv) (pat : RegexPattern) (inp : List Nat) (fuelM : Nat)
    (hdig : env.uIsDigit 0x30 = true) (hval : env.uCharDigitValue 0x30 = 0) :
    ∀ (fl : Nat) (m : MatcherS) (dest : List Nat) (mf : MatcherS) (r : List Nat)
      (st : UErrorCode),
      m.fMatchEnd ≤ inp.length →
      dest = inp.take m.fMatchEnd →
      okRun env pat inp fuelM fl m = true →
      replaceAllLoop env pat inp replDollar0 fuelM fl m dest = .ok (mf, r, st) →
      st = .U_ZERO_ERROR ∧ r = inp.take mf.fMatchEnd ∧ mf.fMatchEnd ≤ inp.length := by
  intro fl
  induction fl with
  | zero => intro m dest mf r st _ _ _ h; cases h
  | succ n ih =>
    intro m dest mf r st hme hdest hok h
    simp only [replaceAllLoop] at h
    simp only [okRun] at hok
    cases hf : find env pat inp fuelM m with
    | err => rw [hf] at h; cases h
    | fuelOut => rw [hf] at h; cases h
    | ok p =>
      obtain ⟨b, m1⟩ := p
      rw [hf] at h hok
      cases b
      · have hfe := findFrom_false env pat inp fuelM (inp.length + 1) m m.fMatchEnd m1 hf
        cases h
        exact ⟨rfl, by rw [hdest, hfe], by rw [hfe]; exact hme⟩
      · obtain ⟨hfm, hsp, hlme⟩ :=
          findFrom_true env pat inp fuelM (inp.length + 1) m m.fMatchEnd m1 hf
        rw [Bool.and_eq_true, Bool.and_eq_true] at hok
        obtain ⟨⟨hok1, hok2⟩, hok3⟩ := hok
        have hse : m1.fMatchStart ≤ m1.fMatchEnd := of_decide_eq_true hok1
        have hel : m1.fMatchEnd ≤ inp.length := of_decide_eq_true hok2
        have hle : m1.fLastMatchEnd ≤ m1.fMatchStart := by rw [hlme]; exact hsp
        dsimp only at h
        rw [appendReplacement_dollar0 env pat inp m1 dest hfm hdig hval hle hse] at h
        rw [if_neg (by simp)] at h
        have hdest2 : dest ++ (inp.drop m1.fLastMatchEnd).take (m1.fMatchStart - m1.fLastMatchEnd)
            ++ (inp.drop m1.fMatchStart).take (m1.fMatchEnd - m1.fMatchStart) =
            inp.take m1.fMatchEnd := by
          rw [hdest, hlme]
          have h1 : inp.take m.fMatchEnd ++
              (inp.drop m.fMatchEnd).take (m1.fMatchStart - m.fMatchEnd) =
              inp.take m1.fMatchStart := by
            rw [← List.take_add]
            congr 1
            omega
          rw [h1, ← List.take_add]
          congr 1
          omega
        rw [hdest2] at h
        exact ih m1 (inp.take m1.fMatchEnd) mf r st hel rfl hok3 h

/-- Claim C4 (amended): `replaceAll(s, P, "$0") = s` holds for every
environment, pattern and subject whose run terminates normally with
every found match inside the documented bounds
(`matchStart ≤ matchEnd ≤ inputLength`, the `okRun` check): every match
is replaced by itself and the unmatched text is copied through. As
stated universally the claim is false: a pattern that finds an empty
match makes `replaceAll` loop forever (see `c4_counterexample`), so no
string at all is returned. The bounds proviso rules out degenerate
matches produced through stale backtrack frames (the stack is never
cleared between calls). -/
theorem c4_theorem (env : UEnv) (pat : RegexPattern) (inp : List Nat) (fl fuelM : Nat)
    (m : MatcherS) (r : List Nat) (st : UErrorCode)
    (hdig : env.uIsDigit 0x30 = true) (hval : env.uCharDigitValue 0x30 = 0)
    (hok : okRun env pat inp fuelM fl (resetM pat m) = true)
    (h : replaceAll env pat inp replDollar0 fl fuelM m = .ok (r, st)) :
    r = inp ∧ st = .U_ZERO_ERROR := by
  simp only [replaceAll] at h
  cases hl : replaceAllLoop env pat inp replDollar0 fuelM fl (resetM pat m) [] with
  | err => rw [hl] at h; cases h
  | fuelOut => rw [hl] at h; cases h
  | ok t =>
    obtain ⟨mf, dest, st'⟩ := t
    obtain ⟨h1, h2, h3⟩ := replaceAllLoop_id env pat inp fuelM hdig hval fl
      (resetM pat m) [] mf dest st' (by simp [resetM]) (by simp [resetM]) hok hl
    rw [hl] at h
    dsimp only at h
    rw [MRes.ok.injEq, Prod.mk.injEq] at h
    obtain ⟨hr, hst⟩ := h
    subst hr
    subst hst
    refine ⟨?_, h1⟩
    rw [h2]
    unfold appendTail
    by_cases hend : mf.fMatchEnd < inp.length
    · rw [if_pos (by omega)]
      rw [show ((inp.length : Int) - (mf.fMatchEnd : Int)).toNat =
        inp.length - mf.fMatchEnd by omega]
      rw [show inp.length - mf.fMatchEnd = (inp.drop mf.fMatchEnd).length by
        rw [List.length_drop]]
      rw [List.take_length, List.take_append_drop]
    · rw [if_neg (by omega)]
      have : mf.fMatchEnd = inp.length := by omega
      rw [this, List.take_length]

/-- The `replaceAll` loop on the empty-match pattern `[END]` over `"a"`
is a fixed point: every `find` matches zero-width at position 0 again,
`appendReplacement("$0")` appends nothing, and the loop state repeats, so
every amount of fuel runs out. -/
theorem replaceAllLoop_patEnd_diverges :
    ∀ (fl fuelM : Nat) (m : MatcherS) (dest : List Nat), m.fMatchEnd = 0 →
      replaceAllLoop asciiEnv patEnd [0x61] replDollar0 fuelM fl m dest = .fuelOut := by
  intro fl
  induction fl with
  | zero => intro fuelM m dest hme; rfl
  | succ n ih =>
    intro fuelM m dest hme
    obtain ⟨cs, ce, ms, me, lme, fmch, st⟩ := m
    simp only at hme
    subst hme
    cases fuelM with
    | zero => rfl
    | succ k =>
      simp only [replaceAllLoop]
      rw [show find asciiEnv patEnd [0x61] (k + 1) { fCaptureStarts := cs, fCaptureEnds := ce, fMatchStart := ms, fMatchEnd := 0, fLastMatchEnd := lme, fMatch := fmch, fStack := st } = .ok (true, { fCaptureStarts := cs.set 0 (-1), fCaptureEnds := ce, fMatchStart := 0, fMatchEnd := 0, fLastMatchEnd := 0, fMatch := true, fStack := st }) from rfl]
      dsimp only
      rw [show appendReplacement asciiEnv patEnd [0x61] { fCaptureStarts := cs.set 0 (-1), fCaptureEnds := ce, fMatchStart := 0, fMatchEnd := 0, fLastMatchEnd := 0, fMatch := true, fStack := st } dest replDollar0 .U_ZERO_ERROR = (dest ++ [], .U_ZERO_ERROR) from rfl]
      rw [if_neg (by simp)]
      exact ih (k + 1) _ (dest ++ []) rfl

/-- Claim C4 counterexample: with the empty-match pattern `[END]` and the
non-empty subject `"a"`, `replaceAll` with replacement `"$0"` never
terminates — for every loop fuel and interpreter fuel the model reports
fuel exhaustion, so in particular it never returns the subject. -/
theorem c4_counterexample :
    replaceAllDivergesOn asciiEnv patEnd [0x61] replDollar0 := by
  intro fl fuelM
  simp only [replaceAll]
  rw [replaceAllLoop_patEnd_diverges fl fuelM (resetM patEnd (newMatcher patEnd)) [] rfl]

/-- Claim C4 witness: the amended identity evaluated on the literal
pattern `a` (with its FAIL-guarding state save) over the subject `"ab"`:
the run terminates, the bounds check holds, and the result is the
subject itself with a clean status. -/
theorem c4_witness :
    okRun asciiEnv patSaveOneCharA [0x61, 0x62] 9 2
        (resetM patSaveOneCharA (newMatcher patSaveOneCharA)) = true ∧
    replaceAll asciiEnv patSaveOneCharA [0x61, 0x62] replDollar0 2 9
        (newMatcher patSaveOneCharA) = .ok ([0x61, 0x62], .U_ZERO_ERROR) ∧
    ([0x61, 0x62] : List Nat) = [0x61, 0x62] ∧
    (UErrorCode.U_ZERO_ERROR = UErrorCode.U_ZERO_ERROR) :=
  ⟨rfl, rfl,
    (c4_theorem asciiEnv patSaveOneCharA [0x61, 0x62] 2 9 (newMatcher patSaveOneCharA)
      [0x61, 0x62] .U_ZERO_ERROR rfl rfl rfl rfl).1,
    (c4_theorem asciiEnv patSaveOneCharA [0x61, 0x62] 2 9 (newMatcher patSaveOneCharA)
      [0x61, 0x62] .U_ZERO_ERROR rfl rfl rfl rfl).2⟩
